import Mathlib

/-
Verification of the valibot core against its natural-language specification.

The TypeScript sources are shallowly embedded: JavaScript runtime values are
modelled by the inductive `JVal`, schema parse procedures become Lean
functions `JVal → Info → Option (Res JVal)` where `none` models a host
exception escaping the parse (the only such source of exceptions in the
modelled code is calling `input.toString()` on a value that has no callable
toString method), and the asynchronous schemas are modelled by sequential
execution of their child tasks (their outputs are written at fixed indices
or keys, so sequential scheduling is observationally adequate for the
properties proved here).

Helpers that the schema files import from modules absent from the source
snapshot (ok, notOk, getIssue, getLeafIssue, getPath, getPathInfo,
getPipeInfo, BLOCKED_KEYS, the Result-returning sync pipe engine and the
primitive string schema) are modelled from the specification; each such
definition carries a doc comment starting with "Modelled from the spec:".
-/

namespace Valibot

/-- JavaScript runtime values. `jobjNoProto` is a plain object created with a
null prototype, so it has no inherited `toString` method. -/
inductive JVal : Type where
  | undef : JVal
  | jnull : JVal
  | jbool : Bool → JVal
  | jnum : Int → JVal
  | jstr : String → JVal
  | jarr : List JVal → JVal
  | jobj : List (String × JVal) → JVal
  | jobjNoProto : List (String × JVal) → JVal
  | jmap : List (JVal × JVal) → JVal
  | jset : List JVal → JVal

/-- JavaScript truthiness of a value. -/
def JVal.truthy : JVal → Bool
  | .undef => false
  | .jnull => false
  | .jbool b => b
  | .jnum n => !(n == 0)
  | .jstr s => !(s == "")
  | _ => true

/-- Whether `typeof input` is the string "object". -/
def JVal.typeofIsObject : JVal → Bool
  | .jnull => true
  | .jobj _ => true
  | .jobjNoProto _ => true
  | .jarr _ => true
  | .jmap _ => true
  | .jset _ => true
  | _ => false

mutual

/-- Model of calling `input.toString()`. Returns `none` when the call throws,
which happens for `null`, `undefined`, and objects without an inherited
toString method (null-prototype objects). -/
def jsToString : JVal → Option String
  | .undef => none
  | .jnull => none
  | .jbool b => some (if b then "true" else "false")
  | .jnum n => some (toString n)
  | .jstr s => some s
  | .jarr xs => jsArrJoin xs
  | .jobj _ => some "[object Object]"
  | .jobjNoProto _ => none
  | .jmap _ => some "[object Map]"
  | .jset _ => some "[object Set]"

/-- Array toString: elements joined with commas. -/
def jsArrJoin : List JVal → Option String
  | [] => some ""
  | [x] => jsArrElem x
  | x :: y :: xs => do
    let s ← jsArrElem x
    let t ← jsArrJoin (y :: xs)
    pure (s ++ "," ++ t)

/-- Element stringification inside Array.prototype.toString: null and
undefined become the empty string. -/
def jsArrElem : JVal → Option String
  | .undef => some ""
  | .jnull => some ""
  | .jbool b => some (if b then "true" else "false")
  | .jnum n => some (toString n)
  | .jstr s => some s
  | .jarr xs => jsArrJoin xs
  | .jobj _ => some "[object Object]"
  | .jobjNoProto _ => none
  | .jmap _ => some "[object Map]"
  | .jset _ => some "[object Set]"

end

/-- Look up an own property in a field list (first match wins). -/
def lookupField (fields : List (String × JVal)) (k : String) : Option JVal :=
  match fields with
  | [] => none
  | (k2, v) :: rest => if k2 = k then some v else lookupField rest k

/-- Model of reading `input[key]` for a string key: own property or undefined.
For arrays, decimal keys address the elements. -/
def getProp (v : JVal) (k : String) : JVal :=
  match v with
  | .jobj fields => (lookupField fields k).getD .undef
  | .jobjNoProto fields => (lookupField fields k).getD .undef
  | .jarr xs =>
    match k.toNat? with
    | some i => (xs.get? i).getD .undef
    | none => .undef
  | _ => (.undef : JVal)

/-- Update-or-append assignment into a field list, preserving insertion
order as JavaScript objects do. -/
def setFields (fields : List (String × JVal)) (k : String) (v : JVal) :
    List (String × JVal) :=
  match fields with
  | [] => [(k, v)]
  | (k2, w) :: rest =>
    if k2 = k then (k2, v) :: rest else (k2, w) :: setFields rest k v

/-- Model of the assignment `output[key] = value` on a fresh plain object.
Assigning to the key "__proto__" does not create an own property (it hits
the inherited accessor and rewrites the prototype instead), so the own
properties are left unchanged in that case. -/
def setProp (fields : List (String × JVal)) (k : String) (v : JVal) :
    List (String × JVal) :=
  if k = "__proto__" then fields else setFields fields k v

/-- Own enumerable string-keyed entries, as produced by `Object.entries`. -/
def ownEntries : JVal → List (String × JVal)
  | .jobj fields => fields
  | .jobjNoProto fields => fields
  | .jarr xs => (List.range xs.length).zip xs |>.map (fun p => (toString p.1, p.2))
  | _ => []

/-- One segment of an issue path: the container kind, the container input,
the key or index, and the value at that key. -/
structure PathItem : Type where
  schema : String
  input : JVal
  key : JVal
  value : JVal

/-- One validation failure. `nested` is the sub-issue sequence a union issue
carries; `origin` distinguishes key-side from value-side failures. -/
inductive Issue : Type where
  | mk : (reason : String) → (validation : String) → (message : String) →
      (input : JVal) → (path : List PathItem) → (nested : List Issue) →
      (origin : Option String) → Issue

def Issue.reason : Issue → String
  | .mk r _ _ _ _ _ _ => r

def Issue.validation : Issue → String
  | .mk _ v _ _ _ _ _ => v

def Issue.message : Issue → String
  | .mk _ _ m _ _ _ _ => m

def Issue.input : Issue → JVal
  | .mk _ _ _ i _ _ _ => i

def Issue.path : Issue → List PathItem
  | .mk _ _ _ _ p _ _ => p

def Issue.nested : Issue → List Issue
  | .mk _ _ _ _ _ n _ => n

def Issue.origin : Issue → Option String
  | .mk _ _ _ _ _ _ o => o

/-- Parse-time configuration and validate-info view, unified: the abort
flags, the accumulated path, the reason tag of the surrounding schema and
the optional key/value origin tag. -/
structure Info : Type where
  abortEarly : Bool := false
  abortPipeEarly : Bool := false
  path : List PathItem := []
  reason : String := "any"
  origin : Option String := none

/-- Result of a parse in the success-flag style: `ok` carries the output,
`notOk` carries the issue sequence. -/
inductive Res (α : Type) : Type where
  | ok : α → Res α
  | notOk : List Issue → Res α

/-- Modelled from the spec: the `getIssue` helper (absent from the source
snapshot) builds an issue from the partial issue data and attaches the path
and origin from the current info; the reason defaults to the info's reason
tag when the caller does not supply one. -/
def getIssue (info : Info) (reason : Option String) (validation message : String)
    (input : JVal) (nested : List Issue := []) : Issue :=
  Issue.mk (reason.getD info.reason) validation message input info.path nested
    info.origin

/-- Modelled from the spec: the `getLeafIssue` helper used by the
ParseResult-style validators; like `getIssue` without an own reason. -/
def getLeafIssue (validation message : String) (input : JVal) (info : Info) :
    Issue :=
  Issue.mk info.reason validation message input info.path [] info.origin

/-- Modelled from the spec: `getPath` appends one path item to the parent
path. -/
def getPath (path : List PathItem) (item : PathItem) : List PathItem :=
  path ++ [item]

/-- Modelled from the spec: `getPathInfo` threads the info to a child parse
with the extended path and an optional origin tag. -/
def getPathInfo (info : Info) (path : List PathItem)
    (origin : Option String := none) : Info :=
  { info with path := path, origin := origin }

/-- Modelled from the spec: `getPipeInfo` sets the reason tag seen by pipe
actions. -/
def getPipeInfo (info : Info) (reason : String) : Info :=
  { info with reason := reason }

/-- Sync validator shape shared by every validator in the source snapshot
(custom, equal, integer, emoji, endsWith, finite, imei, ...): a requirement
check that returns the input unchanged on success and a single issue built
by `getIssue` on failure. -/
structure VAction : Type where
  validation : String
  message : String
  check : JVal → Bool

/-- Run one sync validator, following the source validator template. -/
def VAction.run (a : VAction) (input : JVal) (info : Info) : Res JVal :=
  if a.check input then .ok input
  else .notOk [getIssue info none a.validation a.message input]

/-- Modelled from the spec: loop of the Result-returning sync pipe engine
that the schema files import (section 4.3 of the spec): actions run in
declaration order; a failure aborts immediately under abortEarly or
abortPipeEarly and is otherwise accumulated with the value left unchanged;
a success replaces the current value. -/
def pipeResultLoop (pipe : List VAction) (info : Info) (output : JVal)
    (issues : List Issue) : Res JVal :=
  match pipe with
  | [] => if issues.isEmpty then .ok output else .notOk issues
  | action :: rest =>
    match action.run output info with
    | .ok o => pipeResultLoop rest info o issues
    | .notOk is =>
      if info.abortEarly || info.abortPipeEarly then .notOk is
      else pipeResultLoop rest info output (issues ++ is)

/-- Modelled from the spec: the Result-returning sync pipe engine used by
the sync composite schemas. -/
def executePipeResult (input : JVal) (pipe : List VAction) (info : Info) :
    Res JVal :=
  pipeResultLoop pipe info input []

/-- Never schema parse, from the source `never`: every input fails with one
type issue tagged never. -/
def neverParse (error : Option String) (input : JVal) (info : Info) :
    Option (Res JVal) :=
  some (.notOk [getIssue info (some "type") "never" (error.getD "Invalid type")
    input])

/-- Void schema parse, from the source `voidType`: only undefined passes. -/
def voidParse (error : Option String) (input : JVal) (info : Info) :
    Option (Res JVal) :=
  match input with
  | .undef => some (.ok .undef)
  | _ => some (.notOk [getIssue info (some "type") "void"
      (error.getD "Invalid type") input])

/-- Length of a string or array input, the reading of `input.length` in the
length validators (whose TypeScript input type is string or any[]). -/
def jsLength : JVal → Nat
  | .jstr s => s.length
  | .jarr xs => xs.length
  | _ => 0

/-- Whether a value is in the input universe of the length validators. -/
def isLengthy : JVal → Bool
  | .jstr _ => true
  | .jarr _ => true
  | _ => false

/-- ParseResult-style result used by the library pipe engine and the length
validators: either an output value or a captured issue list. -/
inductive ParseResult (α : Type) : Type where
  | output : α → ParseResult α
  | issues : List Issue → ParseResult α

/-- Validator minLength from the source: fails with one min_length issue
when the input length is below the requirement, otherwise returns the input
unchanged. -/
def minLength (requirement : Nat) (error : Option String) (input : JVal)
    (info : Info) : ParseResult JVal :=
  if jsLength input < requirement then
    .issues [getLeafIssue "min_length" (error.getD "Invalid length") input info]
  else .output input

/-- Validator maxLength from the source: fails with one max_length issue
when the input length exceeds the requirement, otherwise returns the input
unchanged. -/
def maxLength (requirement : Nat) (error : Option String) (input : JVal)
    (info : Info) : ParseResult JVal :=
  if jsLength input > requirement then
    .issues [getLeafIssue "max_length" (error.getD "Invalid length") input info]
  else .output input

/-- Loop of the library pipe engine (executePipe in the source): the
captured issues are an Option so that the first failure initializes them,
later failures append, and the final return distinguishes captured issues
from a clean run; under abortEarly or abortPipeEarly the loop breaks after
capturing. The actions run in an arbitrary monad, modelling effectful
JavaScript calls. -/
def executePipeLoop {m : Type → Type} [Monad m] {α : Type}
    (pipe : List (α → Info → m (ParseResult α))) (info : Info) (output : α)
    (issues : Option (List Issue)) : m (ParseResult α) :=
  match pipe with
  | [] =>
    pure (match issues with
      | some is => .issues is
      | none => .output output)
  | action :: rest => do
    let result ← action output info
    match result with
    | .issues is =>
      let issues2 := match issues with
        | some old => old ++ is
        | none => is
      if info.abortEarly || info.abortPipeEarly then pure (.issues issues2)
      else executePipeLoop rest info output (some issues2)
    | .output o => executePipeLoop rest info o issues

/-- Library pipe engine executePipe from the source: an empty pipe returns
the input at once; otherwise the actions run in order on the pipe info
derived from the parse info and the reason tag. -/
def executePipe {m : Type → Type} [Monad m] {α : Type} (input : α)
    (pipe : List (α → Info → m (ParseResult α))) (parseInfo : Info)
    (reason : String) : m (ParseResult α) :=
  if pipe.isEmpty then pure (.output input)
  else executePipeLoop pipe (getPipeInfo parseInfo reason) input none

/-- Loop of the async pipe engine executePipeAsync from the source: actions
are awaited sequentially; a failure under either abort flag is returned
verbatim, otherwise its issues are appended and the value kept; the loop
ends in notOk exactly when issues were collected. -/
def executePipeAsyncLoop {m : Type → Type} [Monad m] {α : Type}
    (pipe : List (α → Info → m (Res α))) (info : Info) (output : α)
    (issues : List Issue) : m (Res α) :=
  match pipe with
  | [] => pure (if issues.isEmpty then .ok output else .notOk issues)
  | action :: rest => do
    let result ← action output info
    match result with
    | .notOk is =>
      if info.abortEarly || info.abortPipeEarly then pure (.notOk is)
      else executePipeAsyncLoop rest info output (issues ++ is)
    | .ok o => executePipeAsyncLoop rest info o issues

/-- Async pipe engine executePipeAsync from the source. -/
def executePipeAsync {m : Type → Type} [Monad m] {α : Type} (input : α)
    (pipe : List (α → Info → m (Res α))) (info : Info) : m (Res α) :=
  executePipeAsyncLoop pipe info input []

/-- Shape of an embedded parse procedure: `none` models a host exception
escaping the call. -/
abbrev ParseFn : Type := JVal → Info → Option (Res JVal)

/-- Object-shape type gate shared by object and record: the input must be
truthy, have typeof object, and its toString call must yield the plain
object tag. `none` models the gate itself throwing because the input has no
callable toString. -/
def objectGateFails (input : JVal) : Option Bool :=
  if !input.truthy then some true
  else if !input.typeofIsObject then some true
  else match jsToString input with
    | none => none
    | some s => some (s != "[object Object]")

/-- JS object encoding of a path item. -/
def encodePathItem (p : PathItem) : JVal :=
  .jobj [("schema", .jstr p.schema), ("input", p.input), ("key", p.key),
    ("value", p.value)]

mutual

/-- JS object encoding of an issue, as the value a Result object carries. -/
def encodeIssue : Issue → JVal
  | .mk r v m inp path nested origin =>
    .jobj ([("reason", .jstr r), ("validation", .jstr v), ("message", .jstr m),
      ("input", inp), ("path", .jarr (path.map encodePathItem)),
      ("issues", .jarr (encodeIssueList nested))] ++
      (match origin with
        | some o => [("origin", .jstr o)]
        | none => []))

/-- Encode a list of issues. -/
def encodeIssueList : List Issue → List JVal
  | [] => []
  | i :: rest => encodeIssue i :: encodeIssueList rest

end

/-- JS object encoding of a Result value, as built by the ok and notOk
factories: an object with a success flag and either the output or the
issues. -/
def encodeRes : Res JVal → JVal
  | .ok v => .jobj [("success", .jbool true), ("output", v)]
  | .notOk is => .jobj [("success", .jbool false), ("issues", .jarr (encodeIssueList is))]

/-- Model of coercing a value to a property key, as `output[key] = ...`
does: `String(key)`; throws (`none`) when the value has no usable
toString. -/
def jsPropKey : JVal → Option String
  | .jstr s => some s
  | .jnum n => some (toString n)
  | .jbool b => some (if b then "true" else "false")
  | .undef => some "undefined"
  | .jnull => some "null"
  | v => jsToString v

/-- Model of reading `value[0]`: character for strings, element for arrays,
own property "0" for objects; throws (`none`) on null and undefined. -/
def jsIndex0 : JVal → Option JVal
  | .undef => none
  | .jnull => none
  | .jstr s => some (if s = "" then .undef else .jstr (s.take 1))
  | .jarr xs => some ((xs.get? 0).getD .undef)
  | .jobj fields => some ((lookupField fields "0").getD .undef)
  | .jobjNoProto fields => some ((lookupField fields "0").getD .undef)
  | _ => some (.undef : JVal)

/-- Modelled from the spec: the denylist of prototype-polluting keys that
record parsing skips (the values module is absent from the source
snapshot). -/
def BLOCKED_KEYS : List String := ["__proto__", "prototype", "constructor"]

/-- Loop over the declared shape entries of the sync object schema: each
declared key's value (missing keys read as undefined) is parsed by the
child schema with an extended path; a failing child is returned verbatim
under abortEarly and accumulated otherwise; a succeeding child's output is
assigned at the declared key. -/
def objectLoop (pipe : List VAction) (input : JVal) (info : Info)
    (entries : List (String × ParseFn)) (output : List (String × JVal))
    (issues : List Issue) : Option (Res JVal) :=
  match entries with
  | [] =>
    if issues.isEmpty then
      some (executePipeResult (.jobj output) pipe (getPipeInfo info "object"))
    else some (.notOk issues)
  | (key, child) :: rest =>
    let value := getProp input key
    match child value (getPathInfo info (getPath info.path
        ⟨"object", input, .jstr key, value⟩)) with
    | none => none
    | some (.notOk is) =>
      if info.abortEarly then some (.notOk is)
      else objectLoop pipe input info rest output (issues ++ is)
    | some (.ok o) => objectLoop pipe input info rest (setProp output key o) issues

/-- Sync object schema parse, from the source `object`. -/
def objectParse (shape : List (String × ParseFn)) (error : Option String)
    (pipe : List VAction) (input : JVal) (info : Info) : Option (Res JVal) :=
  match objectGateFails input with
  | none => none
  | some true =>
    some (.notOk [getIssue info (some "type") "object"
      (error.getD "Invalid type") input])
  | some false => objectLoop pipe input info shape [] []

/-- Processing of one non-blocked record entry by the sync record schema
(the body of its for-of loop): the key schema parses the key with origin
key, then the value schema parses the value with origin value (a failing
key does not skip the value parse); under abortEarly a failing key or value
result is returned verbatim (`inl`); otherwise `inr` carries the entry to
assign, if any, and the issues both parses pushed. The entry is assigned
only when the key output is truthy (the source checks the unwrapped key
output but the array-wrapped value output, which is always truthy), under
the property key String(keyOutput). -/
def recordEntryStep (keyParse valueParse : ParseFn) (input : JVal)
    (info : Info) (inputKey : String) (inputValue : JVal) :
    Option ((Res JVal) ⊕ (Option (String × JVal) × List Issue)) :=
  let path := getPath info.path ⟨"record", input, .jstr inputKey, inputValue⟩
  match keyParse (.jstr inputKey) (getPathInfo info path (some "key")) with
  | none => none
  | some (.notOk kis) =>
    if info.abortEarly then some (.inl (.notOk kis))
    else
      match valueParse inputValue (getPathInfo info path (some "value")) with
      | none => none
      | some (.notOk vis) =>
        if info.abortEarly then some (.inl (.notOk vis))
        else some (.inr (none, kis ++ vis))
      | some (.ok _) => some (.inr (none, kis))
  | some (.ok kOut) =>
    match valueParse inputValue (getPathInfo info path (some "value")) with
    | none => none
    | some (.notOk vis) =>
      if info.abortEarly then some (.inl (.notOk vis))
      else some (.inr (none, vis))
    | some (.ok vOut) =>
      if kOut.truthy then
        match jsPropKey kOut with
        | none => none
        | some ks => some (.inr (some (ks, vOut), []))
      else some (.inr (none, []))

/-- Loop over the own entries of the record input: blocked keys are skipped
entirely; other entries go through `recordEntryStep`; after the loop a
nonempty issue list fails, otherwise the output object runs through the
record pipe. -/
def recordLoop (keyParse valueParse : ParseFn) (pipe : List VAction)
    (input : JVal) (info : Info) (entries : List (String × JVal))
    (output : List (String × JVal)) (issues : List Issue) :
    Option (Res JVal) :=
  match entries with
  | [] =>
    if issues.isEmpty then
      some (executePipeResult (.jobj output) pipe (getPipeInfo info "record"))
    else some (.notOk issues)
  | (inputKey, inputValue) :: rest =>
    if BLOCKED_KEYS.contains inputKey then
      recordLoop keyParse valueParse pipe input info rest output issues
    else
      match recordEntryStep keyParse valueParse input info inputKey
          inputValue with
      | none => none
      | some (.inl earlyResult) => some earlyResult
      | some (.inr (maybeSet, newIssues)) =>
        recordLoop keyParse valueParse pipe input info rest
          (match maybeSet with
            | some (ks, v0) => setProp output ks v0
            | none => output)
          (issues ++ newIssues)

/-- Sync record schema parse, from the source `record`. -/
def recordParse (keyParse valueParse : ParseFn) (error : Option String)
    (pipe : List VAction) (input : JVal) (info : Info) : Option (Res JVal) :=
  match objectGateFails input with
  | none => none
  | some true =>
    some (.notOk [getIssue info (some "type") "record"
      (error.getD "Invalid type") input])
  | some false =>
    recordLoop keyParse valueParse pipe input info (ownEntries input) [] []

/-- Loop over the union options, from the source `union`: a failing option
contributes its issues and the loop continues; on the first succeeding
option the source re-invokes that option's parse and stores the whole
second Result object (not its output) in the output slot, then breaks. -/
def unionLoop (input : JVal) (info : Info) (options : List ParseFn)
    (issues : List Issue) : Option (Option JVal × List Issue) :=
  match options with
  | [] => some (none, issues)
  | schema :: rest =>
    match schema input info with
    | none => none
    | some (.notOk is) => unionLoop input info rest (issues ++ is)
    | some (.ok _) =>
      match schema input info with
      | none => none
      | some result2 => some (some (encodeRes result2), issues)

/-- Sync union schema parse, from the source `union`: when no option set the
output slot, a single synthetic type issue tagged union carries the
concatenated issues of every alternative; otherwise the stored slot value
is returned wrapped in ok. -/
def unionParse (options : List ParseFn) (error : Option String) (input : JVal)
    (info : Info) : Option (Res JVal) :=
  match unionLoop input info options [] with
  | none => none
  | some (none, issues) =>
    some (.notOk [getIssue info (some "type") "union"
      (error.getD "Invalid type") input issues])
  | some (some out, _) => some (.ok out)

/-- Loop over the items of a sync array input, from the source `array`. -/
def arrayLoop (itemParse : ParseFn) (pipe : List VAction) (input : JVal)
    (info : Info) (elems : List JVal) (index : Nat) (output : List JVal)
    (issues : List Issue) : Option (Res JVal) :=
  match elems with
  | [] =>
    if issues.isEmpty then
      some (executePipeResult (.jarr output) pipe (getPipeInfo info "array"))
    else some (.notOk issues)
  | value :: rest =>
    match itemParse value (getPathInfo info (getPath info.path
        ⟨"array", input, .jnum index, value⟩)) with
    | none => none
    | some result =>
      if info.abortEarly && (match result with | .notOk _ => true | .ok _ => false)
      then some result
      else match result with
      | .notOk is => arrayLoop itemParse pipe input info rest (index + 1) output
          (issues ++ is)
      | .ok o => arrayLoop itemParse pipe input info rest (index + 1)
          (output ++ [o]) issues

/-- Sync array schema parse, from the source `array`. -/
def arrayParse (itemParse : ParseFn) (error : Option String)
    (pipe : List VAction) (input : JVal) (info : Info) : Option (Res JVal) :=
  match input with
  | .jarr elems => arrayLoop itemParse pipe (.jarr elems) info elems 0 [] []
  | _ =>
    some (.notOk [getIssue info (some "type") "array"
      (error.getD "Invalid type") input])

/-- Loop over the declared item schemas of a sync tuple input, from the
source `tuple`; `inl` is an early abortEarly return, `inr` carries the
output and issues so far. -/
def tupleItemsLoop (info : Info) (input : JVal) (xs : List JVal)
    (items : List ParseFn) (index : Nat) (output : List JVal)
    (issues : List Issue) : Option ((Res JVal) ⊕ (List JVal × List Issue)) :=
  match items with
  | [] => some (.inr (output, issues))
  | item :: rest =>
    let value := (xs.get? index).getD .undef
    match item value (getPathInfo info (getPath info.path
        ⟨"tuple", input, .jnum index, value⟩)) with
    | none => none
    | some (.notOk is) =>
      if info.abortEarly then some (.inl (.notOk is))
      else tupleItemsLoop info input xs rest (index + 1) output (issues ++ is)
    | some (.ok o) =>
      tupleItemsLoop info input xs rest (index + 1) (output ++ [o]) issues

/-- Loop over the rest region of a sync tuple input, from the source
`tuple`. -/
def tupleRestLoop (restParse : ParseFn) (info : Info) (input : JVal)
    (values : List JVal) (index : Nat) (output : List JVal)
    (issues : List Issue) : Option ((Res JVal) ⊕ (List JVal × List Issue)) :=
  match values with
  | [] => some (.inr (output, issues))
  | value :: rest =>
    match restParse value (getPathInfo info (getPath info.path
        ⟨"tuple", input, .jnum index, value⟩)) with
    | none => none
    | some (.notOk is) =>
      if info.abortEarly then some (.inl (.notOk is))
      else tupleRestLoop restParse info input rest (index + 1) output
        (issues ++ is)
    | some (.ok o) =>
      tupleRestLoop restParse info input rest (index + 1) (output ++ [o]) issues

/-- Sync tuple schema parse, from the source `tuple`: the gate requires an
array whose length equals the declared item count (no rest schema) or at
least reaches it (rest schema); declared positions parse through their item
schemas, later positions through the rest schema. -/
def tupleParse (items : List ParseFn) (rest : Option ParseFn)
    (error : Option String) (pipe : List VAction) (input : JVal)
    (info : Info) : Option (Res JVal) :=
  match input with
  | .jarr xs =>
    if (rest.isNone && items.length ≠ xs.length) ||
        (rest.isSome && items.length > xs.length) then
      some (.notOk [getIssue info (some "type") "tuple"
        (error.getD "Invalid type") input])
    else
      match tupleItemsLoop info (.jarr xs) xs items 0 [] [] with
      | none => none
      | some (.inl earlyResult) => some earlyResult
      | some (.inr (output, issues)) =>
        match rest with
        | some restParse =>
          match tupleRestLoop restParse info (.jarr xs)
              (xs.drop items.length) items.length output issues with
          | none => none
          | some (.inl earlyResult) => some earlyResult
          | some (.inr (output2, issues2)) =>
            if issues2.isEmpty then
              some (executePipeResult (.jarr output2) pipe
                (getPipeInfo info "tuple"))
            else some (.notOk issues2)
        | none =>
          if issues.isEmpty then
            some (executePipeResult (.jarr output) pipe
              (getPipeInfo info "tuple"))
          else some (.notOk issues)
  | _ =>
    some (.notOk [getIssue info (some "type") "tuple"
      (error.getD "Invalid type") input])

/-- Modelled from the spec: the primitive string schema (its file is absent
from the source snapshot): the type gate accepts exactly typeof string
inputs and then runs the pipe, following the template every primitive
schema in the source uses. -/
def strParse (error : Option String) (pipe : List VAction) (input : JVal)
    (info : Info) : Option (Res JVal) :=
  match input with
  | .jstr _ => some (executePipeResult input pipe (getPipeInfo info "string"))
  | _ =>
    some (.notOk [getIssue info (some "type") "string"
      (error.getD "Invalid type") input])

/-- Universe of modelled sync schemas: the primitive string schema, never,
void, and the composite array, object, record, tuple and union schemas from
the source snapshot. -/
inductive SSchema : Type where
  | strS : Option String → List VAction → SSchema
  | neverS : Option String → SSchema
  | voidS : Option String → SSchema
  | arrayS : SSchema → Option String → List VAction → SSchema
  | objectS : List (String × SSchema) → Option String → List VAction → SSchema
  | recordS : SSchema → SSchema → Option String → List VAction → SSchema
  | tupleS : List SSchema → Option SSchema → Option String → List VAction →
      SSchema
  | unionS : List SSchema → Option String → SSchema

mutual

/-- Parse dispatch over the sync schema universe, tying each schema kind to
its embedded source parse procedure. -/
def parse : SSchema → ParseFn
  | .strS e p => strParse e p
  | .neverS e => neverParse e
  | .voidS e => voidParse e
  | .arrayS item e p => arrayParse (parse item) e p
  | .objectS shape e p => objectParse (parseShape shape) e p
  | .recordS k v e p => recordParse (parse k) (parse v) e p
  | .tupleS items rest e p => tupleParse (parseList items) (parseOpt rest) e p
  | .unionS opts e => unionParse (parseList opts) e

/-- Parse procedures of a declared object shape. -/
def parseShape : List (String × SSchema) → List (String × ParseFn)
  | [] => []
  | (k, s) :: rest => (k, parse s) :: parseShape rest

/-- Parse procedures of a schema list. -/
def parseList : List SSchema → List ParseFn
  | [] => []
  | s :: rest => parse s :: parseList rest

/-- Parse procedure of an optional rest schema. -/
def parseOpt : Option SSchema → Option ParseFn
  | none => none
  | some s => some (parse s)

end

/-- Async pipe run with source validators as the awaited actions; `Id`
models already-resolved latent results, preserving the sequential order of
the source engine. -/
def runPipeAsync (input : JVal) (pipe : List VAction) (info : Info) :
    Res JVal :=
  executePipeAsync (m := Id) input
    (pipe.map (fun a => fun v i => (pure (a.run v i) : Id (Res JVal)))) info

/-- Sequential model of the Promise.all task list of the async array schema:
`inl` is a rejection carrying the result a task threw under abortEarly,
`inr` is fulfillment with the output and issues accumulated by the tasks.
Since each output is written at its own index, sequential scheduling is
observationally adequate. -/
def arrayAsyncTasks (itemParse : ParseFn) (input : JVal) (info : Info)
    (elems : List JVal) (index : Nat) (output : List JVal)
    (issues : List Issue) : Option ((Res JVal) ⊕ (List JVal × List Issue)) :=
  match elems with
  | [] => some (.inr (output, issues))
  | value :: rest =>
    match itemParse value (getPathInfo info (getPath info.path
        ⟨"array", input, .jnum index, value⟩)) with
    | none => none
    | some (.notOk is) =>
      if info.abortEarly then some (.inl (.notOk is))
      else arrayAsyncTasks itemParse input info rest (index + 1) output
        (issues ++ is)
    | some (.ok o) =>
      arrayAsyncTasks itemParse input info rest (index + 1) (output ++ [o])
        issues

/-- Async array schema parse, from the source `arrayAsync`. The source binds
`fail` to the caught rejection or, when no task threw, to the fulfillment
value of Promise.all over the mapped tasks, which is the array of their
undefined returns, and then returns `fail` whenever it is truthy; an array
is truthy, so the issue check and the pipe below are unreachable when no
task threw. The returned value is the raw JavaScript value (encoded
results where the code builds results). -/
def arrayAsyncParse (itemParse : ParseFn) (error : Option String)
    (pipe : List VAction) (input : JVal) (info : Info) : Option JVal :=
  match input with
  | .jarr elems =>
    match arrayAsyncTasks itemParse (.jarr elems) info elems 0 [] [] with
    | none => none
    | some (.inl thrown) =>
      -- fail = the thrown result, an object, hence truthy: returned as-is
      some (encodeRes thrown)
    | some (.inr (output, issues)) =>
      let fail : JVal := .jarr (List.replicate elems.length .undef)
      if fail.truthy then some fail
      else if !issues.isEmpty then some (encodeRes (.notOk issues))
      else some (encodeRes (runPipeAsync (.jarr output) pipe
        (getPipeInfo info "array")))
  | _ =>
    some (encodeRes (.notOk [getIssue info (some "type") "array"
      (error.getD "Invalid type") input]))

/-- Processing of one non-blocked record entry by the async record schema:
the key task and the value task both run (the model settles the key task
first); under abortEarly a failing result is thrown (`inl`); otherwise the
issues both tasks pushed are carried in `inr`, together with the entry to
assign. The source checks the truthiness of both unwrapped outputs and
assigns `output[outputKey] = outputValue[0]`, indexing into the raw value
output. -/
def recordAsyncEntryStep (keyParse valueParse : ParseFn) (input : JVal)
    (info : Info) (inputKey : String) (inputValue : JVal) :
    Option ((Res JVal) ⊕ (Option (String × JVal) × List Issue)) :=
  let path := getPath info.path ⟨"record", input, .jstr inputKey, inputValue⟩
  match keyParse (.jstr inputKey) (getPathInfo info path (some "key")) with
  | none => none
  | some keyResult =>
    match valueParse inputValue (getPathInfo info path (some "value")) with
    | none => none
    | some valueResult =>
      match keyResult with
      | .notOk kis =>
        if info.abortEarly then some (.inl (.notOk kis))
        else
          match valueResult with
          | .notOk vis =>
            if info.abortEarly then some (.inl (.notOk vis))
            else some (.inr (none, kis ++ vis))
          | .ok _ => some (.inr (none, kis))
      | .ok kOut =>
        match valueResult with
        | .notOk vis =>
          if info.abortEarly then some (.inl (.notOk vis))
          else some (.inr (none, vis))
        | .ok vOut =>
          if kOut.truthy && vOut.truthy then
            match jsPropKey kOut, jsIndex0 vOut with
            | some ks, some v0 => some (.inr (some (ks, v0), []))
            | _, _ => none
          else some (.inr (none, []))

/-- Sequential model of the Promise.all task list of the async record
schema: blocked keys are skipped entirely; other entries go through
`recordAsyncEntryStep`; `inl` is a rejection carrying a thrown result,
`inr` is fulfillment with the assembled output and the pushed issues. -/
def recordAsyncLoop (keyParse valueParse : ParseFn) (input : JVal)
    (info : Info) (entries : List (String × JVal))
    (output : List (String × JVal)) (issues : List Issue) :
    Option ((Res JVal) ⊕ (List (String × JVal) × List Issue)) :=
  match entries with
  | [] => some (.inr (output, issues))
  | (inputKey, inputValue) :: rest =>
    if BLOCKED_KEYS.contains inputKey then
      recordAsyncLoop keyParse valueParse input info rest output issues
    else
      match recordAsyncEntryStep keyParse valueParse input info inputKey
          inputValue with
      | none => none
      | some (.inl thrown) => some (.inl thrown)
      | some (.inr (maybeSet, newIssues)) =>
        recordAsyncLoop keyParse valueParse input info rest
          (match maybeSet with
            | some (ks, v0) => setProp output ks v0
            | none => output)
          (issues ++ newIssues)

/-- Async record schema parse, from the source `recordAsync`. Unlike the
async array, the check on the joined value is membership of a success
property, so fulfillment (an array) falls through to the issue check and
the pipe. -/
def recordAsyncParse (keyParse valueParse : ParseFn) (error : Option String)
    (pipe : List VAction) (input : JVal) (info : Info) : Option JVal :=
  match objectGateFails input with
  | none => none
  | some true =>
    some (encodeRes (.notOk [getIssue info (some "type") "record"
      (error.getD "Invalid type") input]))
  | some false =>
    match recordAsyncLoop keyParse valueParse input info (ownEntries input)
        [] [] with
    | none => none
    | some (.inl thrown) =>
      -- the caught rejection has a success property and is returned as-is
      some (encodeRes thrown)
    | some (.inr (output, issues)) =>
      if !issues.isEmpty then some (encodeRes (.notOk issues))
      else some (encodeRes (runPipeAsync (.jobj output) pipe
        (getPipeInfo info "record")))

/-- Loop of the async union schema, from the source `unionAsync`. The body
of the for-of loop breaks on both paths: a succeeding first option stores
its raw output (not wrapped in an array) and breaks; a failing first option
pushes its issues, then falls through to the trailing statements, which
re-invoke the same option, store the whole Result wrapped in an array, and
break. Later options are never reached. -/
def unionAsyncLoop (input : JVal) (info : Info) (options : List ParseFn)
    (issues : List Issue) : Option (Option JVal × List Issue) :=
  match options with
  | [] => some (none, issues)
  | schema :: _rest =>
    match schema input info with
    | none => none
    | some (.ok o) => some (some o, issues)
    | some (.notOk is) =>
      match schema input info with
      | none => none
      | some result2 => some (some (.jarr [encodeRes result2]), issues ++ is)

/-- Async union schema parse, from the source `unionAsync`: the final
return is `ok(output[0])`, indexing into whatever the loop stored. -/
def unionAsyncParse (options : List ParseFn) (error : Option String)
    (input : JVal) (info : Info) : Option JVal :=
  match unionAsyncLoop input info options [] with
  | none => none
  | some (none, issues) =>
    some (encodeRes (.notOk [getIssue info (some "type") "union"
      (error.getD "Invalid type") input issues]))
  | some (some out, _) =>
    match jsIndex0 out with
    | none => none
    | some o => some (encodeRes (.ok o))

theorem parseShape_eq (shape : List (String × SSchema)) :
    parseShape shape = shape.map (fun kv => (kv.1, parse kv.2)) := by
  induction shape with
  | nil => rfl
  | cons kv rest ih => cases kv; simp [parseShape, ih]

theorem parseList_eq (l : List SSchema) : parseList l = l.map parse := by
  induction l with
  | nil => rfl
  | cons s rest ih => simp [parseList, ih]

theorem parseOpt_eq (o : Option SSchema) : parseOpt o = o.map parse := by
  cases o <;> rfl

theorem pipeResultLoop_ok_eq (pipe : List VAction) (info : Info)
    (output : JVal) (issues : List Issue) (w : JVal)
    (h : pipeResultLoop pipe info output issues = .ok w) : w = output := by
  induction pipe generalizing output issues with
  | nil =>
    unfold pipeResultLoop at h
    split at h
    · cases h; rfl
    · cases h
  | cons a rest ih =>
    unfold pipeResultLoop at h
    split at h
    · rename_i o heq
      have ho : o = output := by
        unfold VAction.run at heq
        split at heq
        · cases heq; rfl
        · cases heq
      rw [ho] at h
      exact ih output issues h
    · rename_i is2 heq
      split at h
      · cases h
      · exact ih output (issues ++ is2) h

theorem executePipeResult_ok_eq (v : JVal) (pipe : List VAction) (i : Info)
    (w : JVal) (h : executePipeResult v pipe i = .ok w) : w = v :=
  pipeResultLoop_ok_eq pipe i v [] w h

theorem pipeResultLoop_abort_single (pipe : List VAction) (info : Info)
    (output : JVal) (hab : info.abortEarly = true) (is : List Issue)
    (h : pipeResultLoop pipe info output [] = .notOk is) : is.length = 1 := by
  induction pipe generalizing output with
  | nil =>
    unfold pipeResultLoop at h
    simp at h
  | cons a rest ih =>
    unfold pipeResultLoop at h
    split at h
    · rename_i o heq
      have ho : o = output := by
        unfold VAction.run at heq
        split at heq
        · cases heq; rfl
        · cases heq
      rw [ho] at h
      exact ih output h
    · rename_i is2 heq
      have his : is2.length = 1 := by
        unfold VAction.run at heq
        split at heq
        · cases heq
        · cases heq; rfl
      rw [hab] at h
      simp only [Bool.true_or, if_true] at h
      cases h
      exact his

/-- C9: the parse of a never schema returns, for every input and every parse
info, a failure containing exactly one issue whose reason is type and whose
validation is never, and there is no input for which it returns a
success. -/
theorem claim9_never_single_type_issue (error : Option String) (input : JVal)
    (info : Info) :
    parse (.neverS error) input info =
      some (.notOk [Issue.mk "type" "never" (error.getD "Invalid type") input
        info.path [] info.origin]) ∧
    ∀ v, parse (.neverS error) input info ≠ some (.ok v) := by
  refine ⟨rfl, ?_⟩
  intro v h
  simp [parse, neverParse, getIssue] at h

/-- C9 witness: the never schema evaluated at a concrete input. -/
theorem claim9_never_single_type_issue_witness :
    parse (.neverS none) (.jnum 7) {} =
      some (.notOk [Issue.mk "type" "never" "Invalid type" (.jnum 7) [] []
        none]) :=
  (claim9_never_single_type_issue none (.jnum 7) {}).1

/-- C10: for string or array inputs, minLength n fails with a single
min_length issue exactly when the length is strictly below n, maxLength n
fails with a single max_length issue exactly when the length strictly
exceeds n, and an input of length exactly n passes both with the input
returned unchanged. -/
theorem claim10_length_validators (n : Nat) (error : Option String)
    (input : JVal) (info : Info) (_h : isLengthy input = true) :
    (minLength n error input info =
        .issues [getLeafIssue "min_length" (error.getD "Invalid length") input
          info] ↔ jsLength input < n) ∧
    (¬jsLength input < n → minLength n error input info = .output input) ∧
    (maxLength n error input info =
        .issues [getLeafIssue "max_length" (error.getD "Invalid length") input
          info] ↔ n < jsLength input) ∧
    (¬n < jsLength input → maxLength n error input info = .output input) ∧
    (jsLength input = n → minLength n error input info = .output input ∧
      maxLength n error input info = .output input) := by
  refine ⟨?_, ?_, ?_, ?_, ?_⟩
  · unfold minLength
    split <;> rename_i hlt
    · simp [hlt]
    · simp [hlt]
  · intro hge
    unfold minLength
    simp [hge]
  · unfold maxLength
    split <;> rename_i hgt
    · simpa using hgt
    · simpa using hgt
  · intro hle
    unfold maxLength
    split <;> rename_i hgt
    · exact absurd (by simpa using hgt) hle
    · rfl
  · intro heq
    subst heq
    constructor
    · unfold minLength
      simp
    · unfold maxLength
      simp

/-- C10 witness: the boundary case at a concrete string of length two. -/
theorem claim10_length_validators_witness :
    isLengthy (.jstr "ab") = true ∧
    minLength 2 none (.jstr "ab") {} = .output (.jstr "ab") ∧
    maxLength 2 none (.jstr "ab") {} = .output (.jstr "ab") :=
  ⟨rfl, ((claim10_length_validators 2 none (.jstr "ab") {} rfl).2.2.2.2 rfl).1,
    ((claim10_length_validators 2 none (.jstr "ab") {} rfl).2.2.2.2 rfl).2⟩

/-- C1 counterexample evaluation: the sync union re-invokes the winning
option and wraps the whole second Result object in ok instead of the
option's output, and the async union never advances past its first option:
a failing first option makes the loop re-parse that same option and return
ok of the re-parse Result even though the second option accepts the input,
and a succeeding first option has its raw output indexed with [0], mangling
it. The all-fail single synthetic union issue is also unreachable in the
async variant. -/
theorem claim1_union_counterexample :
    (parse (.unionS [.strS none [], .voidS none] none) (.jstr "hi") {} =
        some (.ok (encodeRes (.ok (.jstr "hi")))) ∧
      parse (.unionS [.strS none [], .voidS none] none) (.jstr "hi") {} ≠
        some (.ok (.jstr "hi"))) ∧
    (unionAsyncParse [parse (.strS none []), parse (.voidS none)] none .undef
        {} =
      some (encodeRes (.ok (encodeRes (.notOk [Issue.mk "type" "string"
        "Invalid type" .undef [] [] none])))) ∧
      parse (.voidS none) .undef {} = some (.ok .undef) ∧
      unionAsyncParse [parse (.strS none []), parse (.voidS none)] none .undef
        {} ≠ some (encodeRes (.ok .undef))) ∧
    unionAsyncParse [parse (.strS none []), parse (.strS none [])] none
        (.jstr "hi") {} = some (encodeRes (.ok (.jstr "h"))) := by
  refine ⟨⟨rfl, ?_⟩, ⟨rfl, rfl, ?_⟩, rfl⟩
  · intro h
    rw [show parse (.unionS [.strS none [], .voidS none] none) (.jstr "hi") {} =
        some (.ok (encodeRes (.ok (.jstr "hi")))) from rfl] at h
    simp [encodeRes] at h
  · intro h
    rw [show unionAsyncParse [parse (.strS none []), parse (.voidS none)] none
        .undef {} = some (encodeRes (.ok (encodeRes (.notOk [Issue.mk "type"
        "string" "Invalid type" .undef [] [] none])))) from rfl] at h
    simp [encodeRes, encodeIssueList, encodeIssue] at h

/-- C2 counterexample evaluation: on an input whose items all parse
successfully, the async array schema returns the fulfillment array of the
Promise.all join (an array of undefined task returns) instead of a success
Result carrying the item outputs, because the truthiness check on the
joined value also fires on fulfillment; no Result object is ever equal to
that array. -/
theorem claim2_arrayAsync_counterexample :
    arrayAsyncParse (parse (.strS none [])) none []
        (.jarr [.jstr "a", .jstr "b"]) {} =
      some (.jarr [.undef, .undef]) ∧
    ∀ r : Res JVal, JVal.jarr [.undef, .undef] ≠ encodeRes r := by
  refine ⟨rfl, ?_⟩
  intro r h
  cases r <;> simp [encodeRes] at h

/-- C3 counterexample evaluation: the sync record drops an entry whose key
schema output is falsy even though both the key parse and the value parse
succeeded (the key output, unlike the value output, is not array-wrapped),
and the async record stores outputValue[0] of the unwrapped value output,
mangling the value, contrary to its own wrapping comment. -/
theorem claim3_record_counterexample :
    (parse (.strS none []) (.jstr "") {} = some (.ok (.jstr "")) ∧
      parse (.strS none []) (.jstr "v") {} = some (.ok (.jstr "v")) ∧
      recordParse (parse (.strS none [])) (parse (.strS none [])) none []
        (.jobj [("", .jstr "v")]) {} = some (.ok (.jobj [])) ∧
      recordParse (parse (.strS none [])) (parse (.strS none [])) none []
        (.jobj [("", .jstr "v")]) {} ≠
        some (.ok (.jobj [("", .jstr "v")]))) ∧
    (recordAsyncParse (parse (.strS none [])) (parse (.strS none [])) none []
        (.jobj [("a", .jstr "hi")]) {} =
      some (encodeRes (.ok (.jobj [("a", .jstr "h")]))) ∧
      recordAsyncParse (parse (.strS none [])) (parse (.strS none [])) none []
        (.jobj [("a", .jstr "hi")]) {} ≠
        some (encodeRes (.ok (.jobj [("a", .jstr "hi")])))) := by
  refine ⟨⟨rfl, rfl, rfl, ?_⟩, rfl, ?_⟩
  · intro h
    rw [show recordParse (parse (.strS none [])) (parse (.strS none [])) none []
        (.jobj [("", .jstr "v")]) {} = some (.ok (.jobj [])) from rfl] at h
    simp at h
  · intro h
    rw [show recordAsyncParse (parse (.strS none [])) (parse (.strS none []))
        none [] (.jobj [("a", .jstr "hi")]) {} =
        some (encodeRes (.ok (.jobj [("a", .jstr "h")]))) from rfl] at h
    simp [encodeRes] at h

/-- C7 counterexample evaluation: the object and record type gates call
input.toString(), so parsing a null-prototype object (which has no callable
toString) propagates a host TypeError out of parse, modelled by the parse
returning none, instead of returning a Result value. -/
theorem claim7_gate_throws_counterexample :
    parse (.objectS [] none []) (.jobjNoProto []) {} = none ∧
    recordParse (parse (.strS none [])) (parse (.strS none [])) none []
      (.jobjNoProto []) {} = none ∧
    parse (.recordS (.strS none []) (.strS none []) none [])
      (.jobjNoProto []) {} = none :=
  ⟨rfl, rfl, rfl⟩

theorem lookupField_eq_none (l : List (String × JVal)) (k : String) :
    lookupField l k = none ↔ k ∉ l.map Prod.fst := by
  induction l with
  | nil => simp [lookupField]
  | cons kv rest ih =>
    cases kv with
    | mk k2 v =>
      by_cases hk : k2 = k
      · subst hk
        simp [lookupField]
      · rw [show lookupField ((k2, v) :: rest) k = lookupField rest k from by
          simp [lookupField, hk]]
        rw [ih, List.map_cons, List.mem_cons]
        have : ¬k = k2 := fun h => hk h.symm
        simp [this]

theorem lookupField_append (l1 l2 : List (String × JVal)) (k : String) :
    lookupField (l1 ++ l2) k =
      match lookupField l1 k with
      | some v => some v
      | none => lookupField l2 k := by
  induction l1 with
  | nil => simp [lookupField]
  | cons kv rest ih =>
    cases kv with
    | mk k2 v =>
      by_cases hk : k2 = k
      · simp [lookupField, hk]
      · simp [lookupField, hk, ih]

theorem setFields_append (l : List (String × JVal)) (k : String) (v : JVal)
    (h : lookupField l k = none) : setFields l k v = l ++ [(k, v)] := by
  induction l with
  | nil => rfl
  | cons kv rest ih =>
    cases kv with
    | mk k2 w =>
      unfold lookupField at h
      by_cases hk : k2 = k
      · simp [hk] at h
      · simp [hk] at h
        simp [setFields, hk, ih h]

theorem setProp_append (l : List (String × JVal)) (k : String) (v : JVal)
    (hk : k ≠ "__proto__") (h : lookupField l k = none) :
    setProp l k v = l ++ [(k, v)] := by
  unfold setProp
  simp [hk, setFields_append l k v h]

theorem foldl_setProp_map {α : Type} (l : List (String × α))
    (outs : String → JVal) (acc : List (String × JVal))
    (hnodup : (l.map Prod.fst).Nodup) (hnp : "__proto__" ∉ l.map Prod.fst)
    (hdisj : ∀ k ∈ l.map Prod.fst, lookupField acc k = none) :
    l.foldl (fun acc kc => setProp acc kc.1 (outs kc.1)) acc =
      acc ++ l.map (fun kc => (kc.1, outs kc.1)) := by
  induction l generalizing acc with
  | nil => simp
  | cons kc rest ih =>
    have hk : kc.1 ≠ "__proto__" := by
      intro h
      exact hnp (by simp [← h])
    have hacc : lookupField acc kc.1 = none := hdisj kc.1 (by simp)
    have hstep : setProp acc kc.1 (outs kc.1) = acc ++ [(kc.1, outs kc.1)] :=
      setProp_append acc kc.1 (outs kc.1) hk hacc
    have hx : kc.1 ∉ rest.map Prod.fst ∧ (rest.map Prod.fst).Nodup := by
      rw [List.map_cons, List.nodup_cons] at hnodup
      exact hnodup
    have hnodup2 : (rest.map Prod.fst).Nodup := hx.2
    have hknotin : kc.1 ∉ rest.map Prod.fst := hx.1
    have hnp2 : "__proto__" ∉ rest.map Prod.fst := by
      intro h
      exact hnp (by simp [h])
    have hdisj2 : ∀ k ∈ rest.map Prod.fst,
        lookupField (acc ++ [(kc.1, outs kc.1)]) k = none := by
      intro k hkmem
      rw [lookupField_append]
      rw [hdisj k (by simp [hkmem])]
      have hne : kc.1 ≠ k := by
        intro h
        exact hknotin (h ▸ hkmem)
      simp [lookupField, hne]
    calc (kc :: rest).foldl (fun acc kc => setProp acc kc.1 (outs kc.1)) acc
        = rest.foldl (fun acc kc => setProp acc kc.1 (outs kc.1))
            (acc ++ [(kc.1, outs kc.1)]) := by rw [List.foldl_cons, hstep]
      _ = acc ++ [(kc.1, outs kc.1)] ++
            rest.map (fun kc => (kc.1, outs kc.1)) :=
          ih (acc ++ [(kc.1, outs kc.1)]) hnodup2 hnp2 hdisj2
      _ = acc ++ (kc :: rest).map (fun kc => (kc.1, outs kc.1)) := by simp

theorem objectLoop_all_ok (pipe : List VAction) (input : JVal) (info : Info)
    (shape : List (String × ParseFn)) (outs : String → JVal)
    (hok : ∀ kc ∈ shape, kc.2 (getProp input kc.1)
      (getPathInfo info (getPath info.path
        ⟨"object", input, .jstr kc.1, getProp input kc.1⟩)) =
      some (.ok (outs kc.1))) :
    ∀ output, objectLoop pipe input info shape output [] =
      some (executePipeResult
        (.jobj (shape.foldl (fun acc kc => setProp acc kc.1 (outs kc.1)) output))
        pipe (getPipeInfo info "object")) := by
  induction shape with
  | nil =>
    intro output
    simp [objectLoop]
  | cons kc rest ih =>
    intro output
    cases kc with
    | mk k c =>
      have hc := hok (k, c) (by simp)
      unfold objectLoop
      simp only at hc
      simp only [hc, List.foldl_cons]
      exact ih (fun kc hkc => hok kc (by simp [hkc])) (setProp output k (outs k))

/-- C8: for a sync object schema on a gate-passing plain object input, each
declared key's value is read as an own property defaulting to undefined and
parsed by the child schema at that key; when every declared key's child
parse succeeds, the assembled output given to the object pipe is a fresh
mapping containing only the declared keys in declaration order mapped to
their child outputs (unknown input keys are dropped), and with an empty
pipe that mapping is exactly the success output. The shape key hypotheses
record what JavaScript object literals guarantee: declared keys are
distinct and do not include __proto__. -/
theorem claim8_object_success_output (shape : List (String × ParseFn))
    (error : Option String) (pipe : List VAction)
    (fields : List (String × JVal)) (info : Info) (outs : String → JVal)
    (hnodup : (shape.map Prod.fst).Nodup)
    (hnp : "__proto__" ∉ shape.map Prod.fst)
    (hok : ∀ kc ∈ shape, kc.2 (getProp (.jobj fields) kc.1)
      (getPathInfo info (getPath info.path
        ⟨"object", .jobj fields, .jstr kc.1, getProp (.jobj fields) kc.1⟩)) =
      some (.ok (outs kc.1))) :
    objectParse shape error pipe (.jobj fields) info =
      some (executePipeResult
        (.jobj (shape.map (fun kc => (kc.1, outs kc.1)))) pipe
        (getPipeInfo info "object")) ∧
    (pipe = [] → objectParse shape error pipe (.jobj fields) info =
      some (.ok (.jobj (shape.map (fun kc => (kc.1, outs kc.1)))))) ∧
    (∀ k, lookupField fields k = none → getProp (.jobj fields) k = .undef) := by
  have hgate : objectGateFails (.jobj fields) = some false := rfl
  have hmain : objectParse shape error pipe (.jobj fields) info =
      some (executePipeResult
        (.jobj (shape.map (fun kc => (kc.1, outs kc.1)))) pipe
        (getPipeInfo info "object")) := by
    unfold objectParse
    rw [hgate]
    rw [objectLoop_all_ok pipe (.jobj fields) info shape outs hok []]
    rw [foldl_setProp_map shape outs [] hnodup hnp (by intro k _; rfl)]
    simp
  refine ⟨hmain, ?_, ?_⟩
  · intro hpipe
    rw [hmain, hpipe]
    rfl
  · intro k hk
    simp [getProp, hk]

/-- C8 witness: a two-key shape over abstract child parses at a concrete
input with an extra unknown key, evaluated to the assembled mapping. -/
theorem claim8_object_success_output_witness :
    objectParse [("a", parse (.strS none [])), ("b", parse (.voidS none))]
        none [] (.jobj [("x", .jnum 3), ("a", .jstr "v")]) {} =
      some (.ok (.jobj [("a", .jstr "v"), ("b", .undef)])) := by
  have h := claim8_object_success_output
    [("a", parse (.strS none [])), ("b", parse (.voidS none))] none []
    [("x", .jnum 3), ("a", .jstr "v")] {}
    (fun k => if k = "a" then .jstr "v" else .undef)
    (by simp) (by simp)
    (by
      intro kc hkc
      simp at hkc
      rcases hkc with h1 | h1 <;> rw [h1] <;> rfl)
  have h2 := h.2.1 rfl
  simpa using h2

/-- Writer-style monad recording which action indices were invoked, used to
state that a pipe engine runs its actions in declaration order, each
exactly once. -/
def Tr (α : Type) : Type := α × List Nat

/-- Bind of the trace monad: logs concatenate in execution order. -/
def Tr.bind {α β : Type} (x : Tr α) (f : α → Tr β) : Tr β :=
  ((f x.1).1, x.2 ++ (f x.1).2)

instance : Monad Tr where
  pure a := (a, [])
  bind := Tr.bind

theorem Tr.bind_def {α β : Type} (x : Tr α) (f : α → Tr β) :
    x >>= f = Tr.bind x f := rfl

theorem Tr.pure_def {α : Type} (a : α) : (pure a : Tr α) = (a, []) := rfl

/-- Index-logging wrapper around ParseResult-style actions: action k logs k
and then behaves as the wrapped pure action. -/
def wrapIdx {α : Type} : Nat → List (α → Info → ParseResult α) →
    List (α → Info → Tr (ParseResult α))
  | _, [] => []
  | k, f :: fs => (fun v i => ((f v i), [k])) :: wrapIdx (k + 1) fs

/-- Index-logging wrapper around Res-style actions. -/
def wrapIdxRes {α : Type} : Nat → List (α → Info → Res α) →
    List (α → Info → Tr (Res α))
  | _, [] => []
  | k, f :: fs => (fun v i => ((f v i), [k])) :: wrapIdxRes (k + 1) fs

/-- Follows the claim wording for a flags-false pipe run over
ParseResult-style actions: fold in declaration order; a failing action
appends its issues and leaves the current value unchanged; a succeeding
action's output becomes the current value. -/
def pipeClaimFold {α : Type} (info : Info)
    (actions : List (α → Info → ParseResult α)) (acc : List Issue × α) :
    List Issue × α :=
  actions.foldl (fun acc a =>
    match a acc.2 info with
    | .issues is => (acc.1 ++ is, acc.2)
    | .output o => (acc.1, o)) acc

/-- Follows the claim wording for a flags-false pipe run over Res-style
actions. -/
def pipeClaimFoldRes {α : Type} (info : Info)
    (actions : List (α → Info → Res α)) (acc : List Issue × α) :
    List Issue × α :=
  actions.foldl (fun acc a =>
    match a acc.2 info with
    | .notOk is => (acc.1 ++ is, acc.2)
    | .ok o => (acc.1, o)) acc

theorem executePipeLoop_id_eq {α : Type} (info : Info)
    (hae : info.abortEarly = false) (hape : info.abortPipeEarly = false)
    (fs : List (α → Info → ParseResult α))
    (hwf : ∀ f ∈ fs, ∀ v is, f v info = .issues is → is ≠ []) :
    ∀ (output : α) (issuesOpt : Option (List Issue)),
      (issuesOpt = none ∨ issuesOpt.getD [] ≠ []) →
      executePipeLoop (m := Id) fs info output issuesOpt =
        (let r := pipeClaimFold info fs (issuesOpt.getD [], output)
         if r.1.isEmpty then ParseResult.output r.2
         else ParseResult.issues r.1) := by
  induction fs with
  | nil =>
    intro output issuesOpt hinv
    cases issuesOpt with
    | none => simp [executePipeLoop, pipeClaimFold]
    | some is =>
      rcases hinv with h | h
      · cases h
      · simp at h
        obtain ⟨a, t, rfl⟩ := List.exists_cons_of_ne_nil h
        simp [executePipeLoop, pipeClaimFold]
  | cons f rest ih =>
    intro output issuesOpt hinv
    have hf := hwf f (by simp)
    have hrest : ∀ g ∈ rest, ∀ v is, g v info = .issues is → is ≠ [] :=
      fun g hg => hwf g (by simp [hg])
    unfold executePipeLoop
    show (match f output info with
      | .issues is =>
        let issues2 := match issuesOpt with
          | some old => old ++ is
          | none => is
        if (info.abortEarly || info.abortPipeEarly) = true then
          (pure (ParseResult.issues issues2) : Id (ParseResult α))
        else executePipeLoop (m := Id) rest info output (some issues2)
      | .output o => executePipeLoop (m := Id) rest info o issuesOpt) = _
    cases hr : f output info with
    | issues is =>
      have hne : is ≠ [] := hf output is hr
      cases issuesOpt with
      | none =>
        dsimp only [Option.getD]
        rw [if_neg (show ¬((info.abortEarly || info.abortPipeEarly) = true) by
          simp [hae, hape])]
        rw [ih hrest output (some is) (by simp [hne])]
        have hfold : pipeClaimFold info (f :: rest) ([], output) =
            pipeClaimFold info rest (is, output) := by
          unfold pipeClaimFold
          rw [List.foldl_cons]
          simp only [hr, List.nil_append]
        rw [hfold]
        rfl
      | some old =>
        dsimp only [Option.getD]
        rw [if_neg (show ¬((info.abortEarly || info.abortPipeEarly) = true) by
          simp [hae, hape])]
        rw [ih hrest output (some (old ++ is)) (by simp [hne])]
        have hfold : pipeClaimFold info (f :: rest) (old, output) =
            pipeClaimFold info rest (old ++ is, output) := by
          unfold pipeClaimFold
          rw [List.foldl_cons]
          simp only [hr]
        rw [hfold]
        rfl
    | output o =>
      dsimp only
      rw [ih hrest o issuesOpt hinv]
      have hfold : pipeClaimFold info (f :: rest) (issuesOpt.getD [], output) =
          pipeClaimFold info rest (issuesOpt.getD [], o) := by
        unfold pipeClaimFold
        rw [List.foldl_cons]
        simp only [hr]
      rw [hfold]

theorem executePipeAsyncLoop_id_eq {α : Type} (info : Info)
    (hae : info.abortEarly = false) (hape : info.abortPipeEarly = false)
    (gs : List (α → Info → Res α)) :
    ∀ (output : α) (issues : List Issue),
      executePipeAsyncLoop (m := Id) gs info output issues =
        (let r := pipeClaimFoldRes info gs (issues, output)
         if r.1.isEmpty then Res.ok r.2 else Res.notOk r.1) := by
  induction gs with
  | nil =>
    intro output issues
    simp [executePipeAsyncLoop, pipeClaimFoldRes]
  | cons g rest ih =>
    intro output issues
    unfold executePipeAsyncLoop
    show (match g output info with
      | .notOk is =>
        if (info.abortEarly || info.abortPipeEarly) = true then
          (pure (Res.notOk is) : Id (Res α))
        else executePipeAsyncLoop (m := Id) rest info output (issues ++ is)
      | .ok o => executePipeAsyncLoop (m := Id) rest info o issues) = _
    cases hr : g output info with
    | notOk is =>
      dsimp only
      rw [if_neg (show ¬((info.abortEarly || info.abortPipeEarly) = true) by
        simp [hae, hape])]
      rw [ih output (issues ++ is)]
      have hfold : pipeClaimFoldRes info (g :: rest) (issues, output) =
          pipeClaimFoldRes info rest (issues ++ is, output) := by
        unfold pipeClaimFoldRes
        rw [List.foldl_cons]
        simp only [hr]
      rw [hfold]
    | ok o =>
      dsimp only
      rw [ih o issues]
      have hfold : pipeClaimFoldRes info (g :: rest) (issues, output) =
          pipeClaimFoldRes info rest (issues, o) := by
        unfold pipeClaimFoldRes
        rw [List.foldl_cons]
        simp only [hr]
      rw [hfold]

theorem executePipeLoop_trace {α : Type} (info : Info)
    (hae : info.abortEarly = false) (hape : info.abortPipeEarly = false)
    (fs : List (α → Info → ParseResult α)) :
    ∀ (k : Nat) (output : α) (issuesOpt : Option (List Issue)),
      (executePipeLoop (m := Tr) (wrapIdx k fs) info output issuesOpt).2 =
        List.range' k fs.length := by
  induction fs with
  | nil =>
    intro k output issuesOpt
    simp [wrapIdx, executePipeLoop, List.range', Tr.pure_def]
  | cons f rest ih =>
    intro k output issuesOpt
    unfold wrapIdx executePipeLoop
    rw [Tr.bind_def]
    unfold Tr.bind
    cases hr : f output info with
    | issues is =>
      simp only [hr, hae, hape, Bool.or_self, if_false]
      show ([k] ++ (executePipeLoop (m := Tr) (wrapIdx (k + 1) rest) info output
        (some _)).2) = _
      rw [ih (k + 1) output _]
      simp [List.range']
    | output o =>
      simp only [hr]
      show ([k] ++ (executePipeLoop (m := Tr) (wrapIdx (k + 1) rest) info o
        issuesOpt).2) = _
      rw [ih (k + 1) o issuesOpt]
      simp [List.range']

theorem executePipeAsyncLoop_trace {α : Type} (info : Info)
    (hae : info.abortEarly = false) (hape : info.abortPipeEarly = false)
    (gs : List (α → Info → Res α)) :
    ∀ (k : Nat) (output : α) (issues : List Issue),
      (executePipeAsyncLoop (m := Tr) (wrapIdxRes k gs) info output issues).2 =
        List.range' k gs.length := by
  induction gs with
  | nil =>
    intro k output issues
    simp [wrapIdxRes, executePipeAsyncLoop, List.range', Tr.pure_def]
  | cons g rest ih =>
    intro k output issues
    unfold wrapIdxRes executePipeAsyncLoop
    rw [Tr.bind_def]
    unfold Tr.bind
    cases hr : g output info with
    | notOk is =>
      simp only [hr, hae, hape, Bool.or_self, if_false]
      show ([k] ++ (executePipeAsyncLoop (m := Tr) (wrapIdxRes (k + 1) rest)
        info output (issues ++ is)).2) = _
      rw [ih (k + 1) output (issues ++ is)]
      simp [List.range']
    | ok o =>
      simp only [hr]
      show ([k] ++ (executePipeAsyncLoop (m := Tr) (wrapIdxRes (k + 1) rest)
        info o issues).2) = _
      rw [ih (k + 1) o issues]
      simp [List.range']

/-- C4: with abortEarly and abortPipeEarly false, both pipe engines run the
actions in declaration order, each exactly once (the trace conjuncts over
the index-logging wrappers); a failing action's issues are appended while
the current value is left unchanged so subsequent actions see the last
successful value, and a succeeding action's output becomes the current
value (the claim-side folds); an empty pipe returns the input value
unchanged; and the final result is err of the accumulated issues when any
action failed, otherwise ok of the final value. The sync conjunct assumes
the actions respect the contract that a failure carries a nonempty issue
sequence. -/
theorem claim4_pipe_engines {α : Type} (input : α) (parseInfo : Info)
    (reason : String) (fs : List (α → Info → ParseResult α))
    (gs : List (α → Info → Res α))
    (hae : parseInfo.abortEarly = false)
    (hape : parseInfo.abortPipeEarly = false)
    (hwf : ∀ f ∈ fs, ∀ v is, f v (getPipeInfo parseInfo reason) = .issues is →
      is ≠ []) :
    (executePipe (m := Id) input fs parseInfo reason =
      (let r := pipeClaimFold (getPipeInfo parseInfo reason) fs ([], input)
       if r.1.isEmpty then ParseResult.output r.2
       else ParseResult.issues r.1)) ∧
    (executePipeAsync (m := Id) input gs parseInfo =
      (let r := pipeClaimFoldRes parseInfo gs ([], input)
       if r.1.isEmpty then Res.ok r.2 else Res.notOk r.1)) ∧
    (executePipe (m := Id) input ([] : List (α → Info → Id (ParseResult α)))
      parseInfo reason = ParseResult.output input) ∧
    (executePipeAsync (m := Id) input ([] : List (α → Info → Id (Res α)))
      parseInfo = Res.ok input) ∧
    ((executePipe (m := Tr) input (wrapIdx 0 fs) parseInfo reason).2 =
      List.range fs.length) ∧
    ((executePipeAsync (m := Tr) input (wrapIdxRes 0 gs) parseInfo).2 =
      List.range gs.length) := by
  have hae2 : (getPipeInfo parseInfo reason).abortEarly = false := hae
  have hape2 : (getPipeInfo parseInfo reason).abortPipeEarly = false := hape
  refine ⟨?_, ?_, rfl, rfl, ?_, ?_⟩
  · cases fs with
    | nil => simp [executePipe, pipeClaimFold]
    | cons f rest =>
      unfold executePipe
      rw [if_neg (by simp)]
      rw [executePipeLoop_id_eq (getPipeInfo parseInfo reason) hae2 hape2
        (f :: rest) hwf input none (Or.inl rfl)]
      rfl
  · exact executePipeAsyncLoop_id_eq parseInfo hae hape gs input []
  · cases fs with
    | nil => rfl
    | cons f rest =>
      unfold executePipe
      rw [if_neg (by simp [wrapIdx])]
      rw [executePipeLoop_trace (getPipeInfo parseInfo reason) hae2 hape2
        (f :: rest) 0 input none]
      rw [List.range_eq_range']
  · rw [show executePipeAsync (m := Tr) input (wrapIdxRes 0 gs) parseInfo =
      executePipeAsyncLoop (m := Tr) (wrapIdxRes 0 gs) parseInfo input []
      from rfl]
    rw [executePipeAsyncLoop_trace parseInfo hae hape gs 0 input []]
    rw [List.range_eq_range']

/-- C4 witness: both engines at a concrete two-action pipe, with the trace
showing each action ran once in order. -/
theorem claim4_pipe_engines_witness :
    executePipe (m := Id) (5 : Nat)
      [fun v _ => ParseResult.output (v + 1),
       fun v _ => ParseResult.output (v * 2)] {} "number" =
      ParseResult.output 12 ∧
    executePipeAsync (m := Id) (5 : Nat)
      [fun v _ => Res.ok (v + 1)] {} = Res.ok 6 ∧
    (executePipe (m := Tr) (5 : Nat)
      (wrapIdx 0 [fun v _ => ParseResult.output (v + 1),
        fun v _ => ParseResult.output (v * 2)]) {} "number").2 = [0, 1] := by
  have h := claim4_pipe_engines (α := Nat) 5 {} "number"
    [fun v _ => ParseResult.output (v + 1),
     fun v _ => ParseResult.output (v * 2)]
    [fun v _ => Res.ok (v + 1)] rfl rfl
    (by
      intro f hf v is hcontra
      simp at hf
      rcases hf with rfl | rfl <;> simp at hcontra)
  refine ⟨?_, ?_, ?_⟩
  · rw [h.1]
    rfl
  · rw [h.2.1]
    rfl
  · rw [h.2.2.2.2.1]
    rfl

theorem pipeAsyncLoop_id_ok_eq (info : Info) :
    ∀ (actions : List (JVal → Info → Id (Res JVal))),
      (∀ act ∈ actions, ∀ v w, act v info = .ok w → w = v) →
      ∀ (output : JVal) (issues : List Issue) (w : JVal),
        executePipeAsyncLoop (m := Id) actions info output issues = .ok w →
        w = output := by
  intro actions
  induction actions with
  | nil =>
    intro _ output issues w h
    unfold executePipeAsyncLoop at h
    replace h : (if issues.isEmpty = true then Res.ok output
        else Res.notOk issues) = Res.ok w := h
    split at h
    · cases h
      rfl
    · cases h
  | cons act rest ih =>
    intro hacts output issues w h
    unfold executePipeAsyncLoop at h
    simp only [Id.bind_eq] at h
    have hrest : ∀ act ∈ rest, ∀ v w, act v info = .ok w → w = v :=
      fun g hg => hacts g (by simp [hg])
    split at h
    · rename_i is heq
      split at h
      · cases h
      · exact ih hrest output (issues ++ is) w h
    · rename_i o heq
      have ho : o = output := hacts act (by simp) output o heq
      rw [ho] at h
      exact ih hrest output issues w h

theorem runPipeAsync_ok_eq (v : JVal) (pipe : List VAction) (i : Info)
    (w : JVal) (h : runPipeAsync v pipe i = .ok w) : w = v := by
  unfold runPipeAsync executePipeAsync at h
  refine pipeAsyncLoop_id_ok_eq i _ ?_ v [] w h
  intro act hact v2 w2 hvw
  simp only [List.mem_map] at hact
  obtain ⟨a, _, rfl⟩ := hact
  replace hvw : a.run v2 i = .ok w2 := hvw
  unfold VAction.run at hvw
  split at hvw
  · cases hvw
    rfl
  · cases hvw

theorem objectGateFails_jstr (k : String) :
    objectGateFails (.jstr k) = some true := by
  unfold objectGateFails
  simp [JVal.typeofIsObject]

theorem jsPropKey_encodeRes (r : Res JVal) :
    jsPropKey (encodeRes r) = some "[object Object]" := by
  cases r <;> rfl

theorem unionLoop_out_encoded (input : JVal) (info : Info) :
    ∀ (opts : List ParseFn) (issues0 : List Issue) (out : JVal)
      (iss : List Issue),
      unionLoop input info opts issues0 = some (some out, iss) →
      ∃ r, out = encodeRes r := by
  intro opts
  induction opts with
  | nil =>
    intro issues0 out iss h
    unfold unionLoop at h
    cases h
  | cons schema rest ih =>
    intro issues0 out iss h
    unfold unionLoop at h
    cases hr : schema input info with
    | none => rw [hr] at h; cases h
    | some result =>
      rw [hr] at h
      cases result with
      | notOk is => exact ih (issues0 ++ is) out iss h
      | ok o =>
        replace h : some (some (encodeRes (Res.ok o)), issues0) =
            some (some out, iss) := h
        cases h
        exact ⟨Res.ok o, rfl⟩

theorem parse_str_key_propkey (s : SSchema) (k : String) (info : Info)
    (v : JVal) (h : parse s (.jstr k) info = some (.ok v)) :
    jsPropKey v = some k ∨ jsPropKey v = some "[object Object]" := by
  cases s with
  | strS e p =>
    replace h : strParse e p (.jstr k) info = some (.ok v) := h
    unfold strParse at h
    replace h : executePipeResult (.jstr k) p (getPipeInfo info "string") =
        .ok v := Option.some.inj h
    left
    rw [executePipeResult_ok_eq _ _ _ _ h]
    rfl
  | neverS e =>
    replace h : neverParse e (.jstr k) info = some (.ok v) := h
    unfold neverParse at h
    cases h
  | voidS e =>
    replace h : voidParse e (.jstr k) info = some (.ok v) := h
    unfold voidParse at h
    cases h
  | arrayS item e p =>
    replace h : arrayParse (parse item) e p (.jstr k) info = some (.ok v) := h
    unfold arrayParse at h
    cases h
  | objectS shape e p =>
    replace h : objectParse (parseShape shape) e p (.jstr k) info =
        some (.ok v) := h
    unfold objectParse at h
    rw [objectGateFails_jstr] at h
    cases h
  | recordS key value e p =>
    replace h : recordParse (parse key) (parse value) e p (.jstr k) info =
        some (.ok v) := h
    unfold recordParse at h
    rw [objectGateFails_jstr] at h
    cases h
  | tupleS items rest e p =>
    replace h : tupleParse (parseList items) (parseOpt rest) e p (.jstr k)
        info = some (.ok v) := h
    unfold tupleParse at h
    cases h
  | unionS opts e =>
    replace h : unionParse (parseList opts) e (.jstr k) info =
        some (.ok v) := h
    unfold unionParse at h
    cases hu : unionLoop (.jstr k) info (parseList opts) [] with
    | none => rw [hu] at h; cases h
    | some pair =>
      rw [hu] at h
      obtain ⟨outSlot, iss⟩ := pair
      cases outSlot with
      | none => cases h
      | some out =>
        obtain ⟨r, hr2⟩ := unionLoop_out_encoded (.jstr k) info
          (parseList opts) [] out iss hu
        replace h : some (Res.ok out) = some (Res.ok v) := h
        injection h with h1
        injection h1 with h2
        right
        rw [← h2, hr2]
        exact jsPropKey_encodeRes r

theorem lookupField_setFields_ne (l : List (String × JVal)) (k b : String)
    (v : JVal) (hbk : b ≠ k) :
    lookupField (setFields l k v) b = lookupField l b := by
  induction l with
  | nil =>
    unfold setFields
    unfold lookupField
    rw [if_neg (fun hh => hbk hh.symm)]
    rfl
  | cons kv rest ih =>
    cases kv with
    | mk k2 w =>
      unfold setFields
      by_cases hk : k2 = k
      · subst hk
        simp only [if_true]
        unfold lookupField
        by_cases hb : k2 = b
        · exact absurd hb.symm hbk
        · simp [hb]
      · simp only [hk, if_false]
        unfold lookupField
        by_cases hb : k2 = b
        · simp [hb]
        · simp [hb, ih]

theorem lookupField_setProp_ne (l : List (String × JVal)) (k b : String)
    (v : JVal) (hbk : b ≠ k) :
    lookupField (setProp l k v) b = lookupField l b := by
  unfold setProp
  split
  · rfl
  · exact lookupField_setFields_ne l k b v hbk

theorem blocked_ne_tag (b : String) (hb : b ∈ BLOCKED_KEYS) :
    b ≠ "[object Object]" := by
  simp [BLOCKED_KEYS] at hb
  rcases hb with rfl | rfl | rfl <;> decide

theorem encodeRes_ok_inj (r : Res JVal) (x : JVal)
    (h : encodeRes r = encodeRes (.ok x)) : r = .ok x := by
  cases r with
  | ok w =>
    simp [encodeRes] at h
    rw [h]
  | notOk is => simp [encodeRes] at h

theorem recordEntryStep_inl_notOk (kp vp : ParseFn) (input : JVal)
    (info : Info) (k : String) (val : JVal) (r : Res JVal)
    (h : recordEntryStep kp vp input info k val = some (.inl r)) :
    ∃ is, r = .notOk is := by
  unfold recordEntryStep at h
  dsimp only at h
  repeat' split at h
  all_goals first
    | (injection h with h1; injection h1 with h2; exact ⟨_, h2.symm⟩)
    | (injection h with h1; injection h1)
    | (injection h)

theorem recordAsyncEntryStep_inl_notOk (kp vp : ParseFn) (input : JVal)
    (info : Info) (k : String) (val : JVal) (r : Res JVal)
    (h : recordAsyncEntryStep kp vp input info k val = some (.inl r)) :
    ∃ is, r = .notOk is := by
  unfold recordAsyncEntryStep at h
  dsimp only at h
  repeat' split at h
  all_goals first
    | (injection h with h1; injection h1 with h2; exact ⟨_, h2.symm⟩)
    | (injection h with h1; injection h1)
    | (injection h)

theorem recordEntryStep_set_key (key : SSchema) (vp : ParseFn) (input : JVal)
    (info : Info) (k : String) (val : JVal) (ks : String) (v0 : JVal)
    (is2 : List Issue)
    (h : recordEntryStep (parse key) vp input info k val =
      some (.inr (some (ks, v0), is2))) :
    ks = k ∨ ks = "[object Object]" := by
  unfold recordEntryStep at h
  dsimp only at h
  repeat' split at h
  all_goals simp only [Option.some.injEq, Sum.inr.injEq, Prod.mk.injEq,
    reduceCtorEq, and_false, false_and] at h
  rename_i x2 kOut hkr x1 vOut hvr htr x0 ks2 hpk
  obtain ⟨⟨hks, _⟩, _⟩ := h
  have hd := parse_str_key_propkey key k _ kOut hkr
  rw [hpk] at hd
  rcases hd with hd | hd
  · left
    rw [← hks]
    exact Option.some.inj hd
  · right
    rw [← hks]
    exact Option.some.inj hd

theorem recordAsyncEntryStep_set_key (key : SSchema) (vp : ParseFn)
    (input : JVal) (info : Info) (k : String) (val : JVal) (ks : String)
    (v0 : JVal) (is2 : List Issue)
    (h : recordAsyncEntryStep (parse key) vp input info k val =
      some (.inr (some (ks, v0), is2))) :
    ks = k ∨ ks = "[object Object]" := by
  unfold recordAsyncEntryStep at h
  dsimp only at h
  repeat' split at h
  all_goals simp only [Option.some.injEq, Sum.inr.injEq, Prod.mk.injEq,
    reduceCtorEq, and_false, false_and] at h
  rename_i x3 x2 r1 kOut hkr r0 vOut hvr htr x1 x0 ks2 v0b hpk hidx
  obtain ⟨⟨hks, _⟩, _⟩ := h
  have hd := parse_str_key_propkey key k _ kOut hkr
  rw [hpk] at hd
  rcases hd with hd | hd
  · left
    rw [← hks]
    exact Option.some.inj hd
  · right
    rw [← hks]
    exact Option.some.inj hd

theorem recordLoop_blocked_safe (key : SSchema) (vp : ParseFn)
    (pipe : List VAction) (input : JVal) (info : Info) :
    ∀ (entries : List (String × JVal)) (output : List (String × JVal))
      (issues : List Issue) (v : JVal),
      (∀ b ∈ BLOCKED_KEYS, lookupField output b = none) →
      recordLoop (parse key) vp pipe input info entries output issues =
        some (.ok v) →
      ∃ out, v = .jobj out ∧ ∀ b ∈ BLOCKED_KEYS, lookupField out b = none := by
  intro entries
  induction entries with
  | nil =>
    intro output issues v hout h
    unfold recordLoop at h
    split at h
    · exact ⟨output, executePipeResult_ok_eq _ _ _ _ (Option.some.inj h), hout⟩
    · simp at h
  | cons entry rest ih =>
    intro output issues v hout h
    obtain ⟨k, val⟩ := entry
    unfold recordLoop at h
    split at h
    · exact ih output issues v hout h
    · rename_i hnb
      cases hs : recordEntryStep (parse key) vp input info k val with
      | none =>
        rw [hs] at h
        cases h
      | some stepRes =>
        rw [hs] at h
        cases stepRes with
        | inl early =>
          obtain ⟨is0, rfl⟩ := recordEntryStep_inl_notOk _ _ _ _ _ _ _ hs
          simp at h
        | inr pr =>
          obtain ⟨maybeSet, newIssues⟩ := pr
          cases maybeSet with
          | none => exact ih output (issues ++ newIssues) v hout h
          | some kv0 =>
            obtain ⟨ks, v0⟩ := kv0
            have hor := recordEntryStep_set_key key vp input info k val ks v0
              newIssues hs
            have hk_not : k ∉ BLOCKED_KEYS := fun hmem =>
              hnb (List.elem_eq_true_of_mem hmem)
            have hout2 : ∀ b ∈ BLOCKED_KEYS,
                lookupField (setProp output ks v0) b = none := by
              intro b hb
              have hbk : b ≠ ks := by
                intro hbk
                rcases hor with hor | hor
                · exact hk_not ((hbk.trans hor) ▸ hb)
                · exact blocked_ne_tag b hb (hbk.trans hor)
              rw [lookupField_setProp_ne output ks b v0 hbk]
              exact hout b hb
            exact ih (setProp output ks v0) (issues ++ newIssues) v hout2 h

theorem recordAsyncLoop_inl_notOk (kp vp : ParseFn) (input : JVal)
    (info : Info) :
    ∀ (entries : List (String × JVal)) (output : List (String × JVal))
      (issues : List Issue) (r : Res JVal),
      recordAsyncLoop kp vp input info entries output issues =
        some (.inl r) →
      ∃ is, r = .notOk is := by
  intro entries
  induction entries with
  | nil =>
    intro output issues r h
    unfold recordAsyncLoop at h
    simp at h
  | cons entry rest ih =>
    intro output issues r h
    obtain ⟨k, val⟩ := entry
    unfold recordAsyncLoop at h
    split at h
    · exact ih output issues r h
    · cases hs : recordAsyncEntryStep kp vp input info k val with
      | none =>
        rw [hs] at h
        cases h
      | some stepRes =>
        rw [hs] at h
        cases stepRes with
        | inl thrown =>
          obtain ⟨is0, rfl⟩ := recordAsyncEntryStep_inl_notOk _ _ _ _ _ _ _ hs
          exact ⟨is0, (Sum.inl.inj (Option.some.inj h)).symm⟩
        | inr pr =>
          obtain ⟨maybeSet, newIssues⟩ := pr
          exact ih _ (issues ++ newIssues) r h

theorem recordAsyncLoop_blocked_safe (key : SSchema) (vp : ParseFn)
    (input : JVal) (info : Info) :
    ∀ (entries : List (String × JVal)) (output : List (String × JVal))
      (issues : List Issue) (out2 : List (String × JVal))
      (iss2 : List Issue),
      (∀ b ∈ BLOCKED_KEYS, lookupField output b = none) →
      recordAsyncLoop (parse key) vp input info entries output issues =
        some (.inr (out2, iss2)) →
      ∀ b ∈ BLOCKED_KEYS, lookupField out2 b = none := by
  intro entries
  induction entries with
  | nil =>
    intro output issues out2 iss2 hout h
    unfold recordAsyncLoop at h
    replace h := Option.some.inj h
    injection h with h1
    injection h1 with h2 h3
    exact h2 ▸ hout
  | cons entry rest ih =>
    intro output issues out2 iss2 hout h
    obtain ⟨k, val⟩ := entry
    unfold recordAsyncLoop at h
    split at h
    · exact ih output issues out2 iss2 hout h
    · rename_i hnb
      cases hs : recordAsyncEntryStep (parse key) vp input info k val with
      | none =>
        rw [hs] at h
        cases h
      | some stepRes =>
        rw [hs] at h
        cases stepRes with
        | inl thrown => simp at h
        | inr pr =>
          obtain ⟨maybeSet, newIssues⟩ := pr
          cases maybeSet with
          | none => exact ih output (issues ++ newIssues) out2 iss2 hout h
          | some kv0 =>
            obtain ⟨ks, v0⟩ := kv0
            have hor := recordAsyncEntryStep_set_key key vp input info k val
              ks v0 newIssues hs
            have hk_not : k ∉ BLOCKED_KEYS := fun hmem =>
              hnb (List.elem_eq_true_of_mem hmem)
            have hout2 : ∀ b ∈ BLOCKED_KEYS,
                lookupField (setProp output ks v0) b = none := by
              intro b hb
              have hbk : b ≠ ks := by
                intro hbk
                rcases hor with hor | hor
                · exact hk_not ((hbk.trans hor) ▸ hb)
                · exact blocked_ne_tag b hb (hbk.trans hor)
              rw [lookupField_setProp_ne output ks b v0 hbk]
              exact hout b hb
            exact ih (setProp output ks v0) (issues ++ newIssues) out2 iss2
              hout2 h

theorem recordEntryStep_ext (kp1 vp1 kp2 vp2 : ParseFn) (input : JVal)
    (info : Info) (k : String) (val : JVal)
    (hk : ∀ i, kp1 (.jstr k) i = kp2 (.jstr k) i)
    (hv : ∀ i, vp1 val i = vp2 val i) :
    recordEntryStep kp1 vp1 input info k val =
      recordEntryStep kp2 vp2 input info k val := by
  unfold recordEntryStep
  simp only [hk, hv]

theorem recordAsyncEntryStep_ext (kp1 vp1 kp2 vp2 : ParseFn) (input : JVal)
    (info : Info) (k : String) (val : JVal)
    (hk : ∀ i, kp1 (.jstr k) i = kp2 (.jstr k) i)
    (hv : ∀ i, vp1 val i = vp2 val i) :
    recordAsyncEntryStep kp1 vp1 input info k val =
      recordAsyncEntryStep kp2 vp2 input info k val := by
  unfold recordAsyncEntryStep
  simp only [hk, hv]

theorem recordLoop_ext (kp1 vp1 kp2 vp2 : ParseFn) (pipe : List VAction)
    (input : JVal) (info : Info) :
    ∀ (entries : List (String × JVal)),
      (∀ kv ∈ entries, ¬(BLOCKED_KEYS.contains kv.1 = true) →
        (∀ i, kp1 (.jstr kv.1) i = kp2 (.jstr kv.1) i) ∧
        (∀ i, vp1 kv.2 i = vp2 kv.2 i)) →
      ∀ (output : List (String × JVal)) (issues : List Issue),
        recordLoop kp1 vp1 pipe input info entries output issues =
          recordLoop kp2 vp2 pipe input info entries output issues := by
  intro entries
  induction entries with
  | nil =>
    intro _ output issues
    rfl
  | cons entry rest ih =>
    intro hag output issues
    obtain ⟨k, val⟩ := entry
    have hagrest : ∀ kv ∈ rest, ¬(BLOCKED_KEYS.contains kv.1 = true) →
        (∀ i, kp1 (.jstr kv.1) i = kp2 (.jstr kv.1) i) ∧
        (∀ i, vp1 kv.2 i = vp2 kv.2 i) :=
      fun kv hkv => hag kv (by simp [hkv])
    unfold recordLoop
    split
    · exact ih hagrest output issues
    · rename_i hnb
      have hs := recordEntryStep_ext kp1 vp1 kp2 vp2 input info k val
        (hag (k, val) (by simp) hnb).1 (hag (k, val) (by simp) hnb).2
      rw [hs]
      cases hstep : recordEntryStep kp2 vp2 input info k val with
      | none => rfl
      | some stepRes =>
        cases stepRes with
        | inl early => rfl
        | inr pr =>
          obtain ⟨maybeSet, newIssues⟩ := pr
          exact ih hagrest _ (issues ++ newIssues)

theorem recordAsyncLoop_ext (kp1 vp1 kp2 vp2 : ParseFn) (input : JVal)
    (info : Info) :
    ∀ (entries : List (String × JVal)),
      (∀ kv ∈ entries, ¬(BLOCKED_KEYS.contains kv.1 = true) →
        (∀ i, kp1 (.jstr kv.1) i = kp2 (.jstr kv.1) i) ∧
        (∀ i, vp1 kv.2 i = vp2 kv.2 i)) →
      ∀ (output : List (String × JVal)) (issues : List Issue),
        recordAsyncLoop kp1 vp1 input info entries output issues =
          recordAsyncLoop kp2 vp2 input info entries output issues := by
  intro entries
  induction entries with
  | nil =>
    intro _ output issues
    rfl
  | cons entry rest ih =>
    intro hag output issues
    obtain ⟨k, val⟩ := entry
    have hagrest : ∀ kv ∈ rest, ¬(BLOCKED_KEYS.contains kv.1 = true) →
        (∀ i, kp1 (.jstr kv.1) i = kp2 (.jstr kv.1) i) ∧
        (∀ i, vp1 kv.2 i = vp2 kv.2 i) :=
      fun kv hkv => hag kv (by simp [hkv])
    unfold recordAsyncLoop
    split
    · exact ih hagrest output issues
    · rename_i hnb
      have hs := recordAsyncEntryStep_ext kp1 vp1 kp2 vp2 input info k val
        (hag (k, val) (by simp) hnb).1 (hag (k, val) (by simp) hnb).2
      rw [hs]
      cases hstep : recordAsyncEntryStep kp2 vp2 input info k val with
      | none => rfl
      | some stepRes =>
        cases stepRes with
        | inl thrown => rfl
        | inr pr =>
          obtain ⟨maybeSet, newIssues⟩ := pr
          exact ih hagrest _ (issues ++ newIssues)

/-- C6: record parsing skips the denylisted keys __proto__, prototype and
constructor entirely: a blocked entry is consumed by the loop with no
change at all (first two conjuncts), the parse result depends only on the
key and value schemas' behavior on non-blocked entries (the two
extensionality conjuncts, which is the semantic content of the key and
value schemas never being invoked on blocked entries), and a success output
of the sync or async record parse never carries a blocked key as an own
property (last two conjuncts, with the key schema drawn from the modelled
schema universe). -/
theorem claim6_record_blocked_keys :
    (∀ (kp vp : ParseFn) (pipe : List VAction) (input : JVal) (info : Info)
      (k : String) (val : JVal) (rest : List (String × JVal))
      (output : List (String × JVal)) (issues : List Issue),
      BLOCKED_KEYS.contains k = true →
      recordLoop kp vp pipe input info ((k, val) :: rest) output issues =
        recordLoop kp vp pipe input info rest output issues) ∧
    (∀ (kp vp : ParseFn) (input : JVal) (info : Info) (k : String)
      (val : JVal) (rest : List (String × JVal))
      (output : List (String × JVal)) (issues : List Issue),
      BLOCKED_KEYS.contains k = true →
      recordAsyncLoop kp vp input info ((k, val) :: rest) output issues =
        recordAsyncLoop kp vp input info rest output issues) ∧
    (∀ (kp1 vp1 kp2 vp2 : ParseFn) (error : Option String)
      (pipe : List VAction) (fields : List (String × JVal)) (info : Info),
      (∀ kv ∈ fields, ¬(BLOCKED_KEYS.contains kv.1 = true) →
        (∀ i, kp1 (.jstr kv.1) i = kp2 (.jstr kv.1) i) ∧
        (∀ i, vp1 kv.2 i = vp2 kv.2 i)) →
      recordParse kp1 vp1 error pipe (.jobj fields) info =
        recordParse kp2 vp2 error pipe (.jobj fields) info) ∧
    (∀ (kp1 vp1 kp2 vp2 : ParseFn) (error : Option String)
      (pipe : List VAction) (fields : List (String × JVal)) (info : Info),
      (∀ kv ∈ fields, ¬(BLOCKED_KEYS.contains kv.1 = true) →
        (∀ i, kp1 (.jstr kv.1) i = kp2 (.jstr kv.1) i) ∧
        (∀ i, vp1 kv.2 i = vp2 kv.2 i)) →
      recordAsyncParse kp1 vp1 error pipe (.jobj fields) info =
        recordAsyncParse kp2 vp2 error pipe (.jobj fields) info) ∧
    (∀ (key : SSchema) (vp : ParseFn) (error : Option String)
      (pipe : List VAction) (fields : List (String × JVal)) (info : Info)
      (v : JVal),
      recordParse (parse key) vp error pipe (.jobj fields) info =
        some (.ok v) →
      ∃ out, v = .jobj out ∧ ∀ b ∈ BLOCKED_KEYS, lookupField out b = none) ∧
    (∀ (key : SSchema) (vp : ParseFn) (error : Option String)
      (pipe : List VAction) (fields : List (String × JVal)) (info : Info)
      (v : JVal),
      recordAsyncParse (parse key) vp error pipe (.jobj fields) info =
        some (encodeRes (.ok v)) →
      ∃ out, v = .jobj out ∧ ∀ b ∈ BLOCKED_KEYS, lookupField out b = none) := by
  refine ⟨?_, ?_, ?_, ?_, ?_, ?_⟩
  · intro kp vp pipe input info k val rest output issues hk
    conv_lhs => unfold recordLoop
    rw [if_pos hk]
  · intro kp vp input info k val rest output issues hk
    conv_lhs => unfold recordAsyncLoop
    rw [if_pos hk]
  · intro kp1 vp1 kp2 vp2 error pipe fields info hag
    show recordLoop kp1 vp1 pipe (.jobj fields) info fields [] [] =
      recordLoop kp2 vp2 pipe (.jobj fields) info fields [] []
    exact recordLoop_ext kp1 vp1 kp2 vp2 pipe (.jobj fields) info fields hag
      [] []
  · intro kp1 vp1 kp2 vp2 error pipe fields info hag
    show (match recordAsyncLoop kp1 vp1 (.jobj fields) info fields [] [] with
      | none => none
      | some (.inl thrown) => some (encodeRes thrown)
      | some (.inr (output, issues)) =>
        if !issues.isEmpty then some (encodeRes (.notOk issues))
        else some (encodeRes (runPipeAsync (.jobj output) pipe
          (getPipeInfo info "record")))) =
      (match recordAsyncLoop kp2 vp2 (.jobj fields) info fields [] [] with
      | none => none
      | some (.inl thrown) => some (encodeRes thrown)
      | some (.inr (output, issues)) =>
        if !issues.isEmpty then some (encodeRes (.notOk issues))
        else some (encodeRes (runPipeAsync (.jobj output) pipe
          (getPipeInfo info "record"))))
    rw [recordAsyncLoop_ext kp1 vp1 kp2 vp2 (.jobj fields) info fields hag
      [] []]
  · intro key vp error pipe fields info v h
    replace h : recordLoop (parse key) vp pipe (.jobj fields) info fields []
        [] = some (.ok v) := h
    exact recordLoop_blocked_safe key vp pipe (.jobj fields) info fields [] []
      v (by intro b _; rfl) h
  · intro key vp error pipe fields info v h
    replace h : (match recordAsyncLoop (parse key) vp (.jobj fields) info
        fields [] [] with
      | none => none
      | some (.inl thrown) => some (encodeRes thrown)
      | some (.inr (output, issues)) =>
        if !issues.isEmpty then some (encodeRes (.notOk issues))
        else some (encodeRes (runPipeAsync (.jobj output) pipe
          (getPipeInfo info "record")))) = some (encodeRes (.ok v)) := h
    cases hl : recordAsyncLoop (parse key) vp (.jobj fields) info fields []
        [] with
    | none =>
      rw [hl] at h
      cases h
    | some stepRes =>
      rw [hl] at h
      cases stepRes with
      | inl thrown =>
        obtain ⟨is0, rfl⟩ := recordAsyncLoop_inl_notOk (parse key) vp
          (.jobj fields) info fields [] [] thrown hl
        replace h : some (encodeRes (Res.notOk is0)) =
            some (encodeRes (Res.ok v)) := h
        have := encodeRes_ok_inj _ _ (Option.some.inj h)
        cases this
      | inr pr =>
        obtain ⟨output, issues⟩ := pr
        replace h : (if !issues.isEmpty then
            some (encodeRes (Res.notOk issues))
          else some (encodeRes (runPipeAsync (.jobj output) pipe
            (getPipeInfo info "record")))) = some (encodeRes (.ok v)) := h
        split at h
        · have := encodeRes_ok_inj _ _ (Option.some.inj h)
          cases this
        · have hp := encodeRes_ok_inj _ _ (Option.some.inj h)
          have hv := runPipeAsync_ok_eq (.jobj output) pipe
            (getPipeInfo info "record") v hp
          refine ⟨output, hv, ?_⟩
          exact recordAsyncLoop_blocked_safe key vp (.jobj fields) info
            fields [] [] output issues (by intro b _; rfl) hl

/-- C6 witness: a concrete record input carrying all three blocked keys,
parsed by both variants; the success outputs contain only the benign
key. -/
theorem claim6_record_blocked_keys_witness :
    recordParse (parse (.strS none [])) (parse (.strS none [])) none []
      (.jobj [("__proto__", .jstr "x"), ("prototype", .jstr "y"),
        ("constructor", .jstr "z"), ("a", .jstr "v")]) {} =
      some (.ok (.jobj [("a", .jstr "v")])) ∧
    (∃ out, JVal.jobj [("a", .jstr "v")] = .jobj out ∧
      ∀ b ∈ BLOCKED_KEYS, lookupField out b = none) ∧
    recordAsyncParse (parse (.strS none [])) (parse (.strS none [])) none []
      (.jobj [("__proto__", .jstr "x"), ("a", .jstr "v")]) {} =
      some (encodeRes (.ok (.jobj [("a", .jstr "v")]))) := by
  refine ⟨rfl, ?_, rfl⟩
  exact (claim6_record_blocked_keys.2.2.2.2.1 (.strS none [])
    (parse (.strS none [])) none []
    [("__proto__", .jstr "x"), ("prototype", .jstr "y"),
      ("constructor", .jstr "z"), ("a", .jstr "v")] {}
    (.jobj [("a", .jstr "v")]) rfl)

/-- Abort-early single-issue property of a parse procedure: under
abortEarly, every failure carries exactly one issue. -/
def AbortSingle (f : ParseFn) : Prop :=
  ∀ v i is, i.abortEarly = true → f v i = some (.notOk is) → is.length = 1

theorem strParse_abortSingle (e : Option String) (p : List VAction) :
    AbortSingle (strParse e p) := by
  intro v i is hab h
  unfold strParse at h
  split at h
  · exact pipeResultLoop_abort_single p (getPipeInfo i "string") _ hab is
      (Option.some.inj h)
  · cases Option.some.inj h
    rfl

theorem neverParse_abortSingle (e : Option String) :
    AbortSingle (neverParse e) := by
  intro v i is hab h
  unfold neverParse at h
  cases Option.some.inj h
  rfl

theorem voidParse_abortSingle (e : Option String) :
    AbortSingle (voidParse e) := by
  intro v i is hab h
  unfold voidParse at h
  split at h
  · cases h
  · cases Option.some.inj h
    rfl

theorem arrayLoop_abort_single (itemParse : ParseFn) (pipe : List VAction)
    (input : JVal) (info : Info) (hab : info.abortEarly = true)
    (hitem : AbortSingle itemParse) :
    ∀ (elems : List JVal) (index : Nat) (output : List JVal)
      (is : List Issue),
      arrayLoop itemParse pipe input info elems index output [] =
        some (.notOk is) → is.length = 1 := by
  intro elems
  induction elems with
  | nil =>
    intro index output is h
    unfold arrayLoop at h
    exact pipeResultLoop_abort_single pipe (getPipeInfo info "array") _ hab is
      (Option.some.inj h)
  | cons value rest ih =>
    intro index output is h
    unfold arrayLoop at h
    cases hr : itemParse value (getPathInfo info (getPath info.path
        ⟨"array", input, .jnum index, value⟩)) with
    | none =>
      rw [hr] at h
      cases h
    | some result =>
      rw [hr] at h
      cases result with
      | notOk is2 =>
        replace h : (if (info.abortEarly && true) = true then
            some (Res.notOk is2)
          else arrayLoop itemParse pipe input info rest (index + 1) output
            ([] ++ is2)) = some (.notOk is) := h
        rw [hab] at h
        simp only [Bool.and_self, if_true] at h
        cases Option.some.inj h
        exact hitem value (getPathInfo info (getPath info.path
          ⟨"array", input, .jnum index, value⟩)) _ hab hr
      | ok o =>
        replace h : (if (info.abortEarly && false) = true then
            some (Res.ok o)
          else arrayLoop itemParse pipe input info rest (index + 1)
            (output ++ [o]) []) = some (.notOk is) := h
        rw [hab] at h
        simp only [Bool.and_false, Bool.true_and] at h
        rw [if_neg (by simp)] at h
        exact ih (index + 1) (output ++ [o]) is h

theorem arrayParse_abortSingle (itemParse : ParseFn) (e : Option String)
    (p : List VAction) (hitem : AbortSingle itemParse) :
    AbortSingle (arrayParse itemParse e p) := by
  intro v i is hab h
  unfold arrayParse at h
  split at h
  · rename_i elems
    exact arrayLoop_abort_single itemParse p (.jarr elems) i hab hitem elems
      0 [] is h
  · cases Option.some.inj h
    rfl

theorem objectLoop_abort_single (pipe : List VAction) (input : JVal)
    (info : Info) (hab : info.abortEarly = true) :
    ∀ (entries : List (String × ParseFn)),
      (∀ kc ∈ entries, AbortSingle kc.2) →
      ∀ (output : List (String × JVal)) (is : List Issue),
        objectLoop pipe input info entries output [] = some (.notOk is) →
        is.length = 1 := by
  intro entries
  induction entries with
  | nil =>
    intro _ output is h
    unfold objectLoop at h
    exact pipeResultLoop_abort_single pipe (getPipeInfo info "object") _ hab
      is (Option.some.inj h)
  | cons kc rest ih =>
    intro hall output is h
    obtain ⟨k, c⟩ := kc
    unfold objectLoop at h
    dsimp only at h
    cases hr : c (getProp input k) (getPathInfo info (getPath info.path
        ⟨"object", input, .jstr k, getProp input k⟩)) with
    | none =>
      rw [hr] at h
      cases h
    | some result =>
      rw [hr] at h
      cases result with
      | notOk is2 =>
        rw [hab] at h
        simp only [if_true] at h
        cases Option.some.inj h
        exact hall (k, c) (by simp) (getProp input k)
          (getPathInfo info (getPath info.path
            ⟨"object", input, .jstr k, getProp input k⟩)) _ hab hr
      | ok o =>
        exact ih (fun kc hkc => hall kc (by simp [hkc]))
          (setProp output k o) is h

theorem objectParse_abortSingle (shape : List (String × ParseFn))
    (e : Option String) (p : List VAction)
    (hall : ∀ kc ∈ shape, AbortSingle kc.2) :
    AbortSingle (objectParse shape e p) := by
  intro v i is hab h
  unfold objectParse at h
  split at h
  · cases h
  · cases Option.some.inj h
    rfl
  · exact objectLoop_abort_single p v i hab shape hall [] is h

theorem recordEntryStep_abort_inr (kp vp : ParseFn) (input : JVal)
    (info : Info) (k : String) (val : JVal) (hab : info.abortEarly = true) :
    ∀ ms ni, recordEntryStep kp vp input info k val = some (.inr (ms, ni)) →
      ni = [] := by
  intro ms ni h
  unfold recordEntryStep at h
  dsimp only at h
  rw [hab] at h
  simp only [eq_self_iff_true, if_true] at h
  repeat' split at h
  all_goals first
    | (injection h with h1; injection h1 with h2; injection h2 with h3 h4;
        exact h4.symm)
    | (injection h with h1; injection h1)
    | (injection h)

theorem recordEntryStep_abort_inl_single (kp vp : ParseFn) (input : JVal)
    (info : Info) (k : String) (val : JVal) (hab : info.abortEarly = true)
    (hk : AbortSingle kp) (hv : AbortSingle vp) :
    ∀ r, recordEntryStep kp vp input info k val = some (.inl r) →
      ∃ is, r = .notOk is ∧ is.length = 1 := by
  intro r h
  unfold recordEntryStep at h
  dsimp only at h
  rw [hab] at h
  simp only [eq_self_iff_true, if_true] at h
  repeat' split at h
  all_goals simp only [Option.some.injEq, Sum.inl.injEq, reduceCtorEq] at h
  all_goals subst h
  all_goals rename_i isx heq
  all_goals first
    | exact ⟨isx, rfl, hk _ _ isx (by exact hab) heq⟩
    | exact ⟨isx, rfl, hv _ _ isx (by exact hab) heq⟩

theorem recordLoop_abort_single (kp vp : ParseFn) (pipe : List VAction)
    (input : JVal) (info : Info) (hab : info.abortEarly = true)
    (hk : AbortSingle kp) (hv : AbortSingle vp) :
    ∀ (entries : List (String × JVal)) (output : List (String × JVal))
      (is : List Issue),
      recordLoop kp vp pipe input info entries output [] =
        some (.notOk is) → is.length = 1 := by
  intro entries
  induction entries with
  | nil =>
    intro output is h
    unfold recordLoop at h
    simp only [List.isEmpty_nil, if_true] at h
    exact pipeResultLoop_abort_single pipe (getPipeInfo info "record")
      (.jobj output) (by exact hab) is (Option.some.inj h)
  | cons e rest ih =>
    obtain ⟨k, val⟩ := e
    intro output is h
    unfold recordLoop at h
    split at h
    · exact ih output is h
    · split at h
      · exact Option.noConfusion h
      · rename_i earlyResult heq
        obtain ⟨is2, hr, hlen⟩ :=
          recordEntryStep_abort_inl_single kp vp input info k val hab hk hv
            earlyResult heq
        rw [Option.some.inj h] at hr
        rw [Res.notOk.inj hr]
        exact hlen
      · rename_i ms ni heq
        rw [recordEntryStep_abort_inr kp vp input info k val hab ms ni heq]
          at h
        exact ih _ is h

theorem recordParse_abortSingle (kp vp : ParseFn) (e : Option String)
    (pipe : List VAction) (hk : AbortSingle kp) (hv : AbortSingle vp) :
    AbortSingle (recordParse kp vp e pipe) := by
  intro v i is hab h
  unfold recordParse at h
  split at h
  · exact Option.noConfusion h
  · cases Option.some.inj h
    rfl
  · exact recordLoop_abort_single kp vp pipe v i hab hk hv (ownEntries v) []
      is h

theorem tupleItemsLoop_abort (info : Info) (input : JVal) (xs : List JVal)
    (hab : info.abortEarly = true) :
    ∀ (items : List ParseFn), (∀ c ∈ items, AbortSingle c) →
      ∀ (index : Nat) (output : List JVal) (issues : List Issue) res,
        tupleItemsLoop info input xs items index output issues = some res →
        (∀ r, res = .inl r → ∃ is, r = .notOk is ∧ is.length = 1) ∧
        (∀ out2 is2, res = .inr (out2, is2) → is2 = issues) := by
  intro items
  induction items with
  | nil =>
    intro _ index output issues res h
    unfold tupleItemsLoop at h
    cases Option.some.inj h
    refine ⟨fun r hr => Sum.noConfusion hr, fun out2 is2 hr => ?_⟩
    cases Sum.inr.inj hr
    rfl
  | cons item rest ih =>
    intro hall index output issues res h
    unfold tupleItemsLoop at h
    dsimp only at h
    cases hr : item ((xs.get? index).getD .undef) (getPathInfo info
        (getPath info.path
          ⟨"tuple", input, .jnum index, (xs.get? index).getD .undef⟩)) with
    | none =>
      rw [hr] at h
      cases h
    | some result =>
      rw [hr] at h
      cases result with
      | notOk is2 =>
        rw [hab] at h
        simp only [if_true] at h
        cases Option.some.inj h
        refine ⟨fun r hrr => ?_, fun out2 is3 hrr => Sum.noConfusion hrr⟩
        cases Sum.inl.inj hrr
        exact ⟨is2, rfl, hall item (by simp) _ _ is2 (by exact hab) hr⟩
      | ok o =>
        exact ih (fun c hc => hall c (by simp [hc])) (index + 1)
          (output ++ [o]) issues res h

theorem tupleRestLoop_abort (restParse : ParseFn) (info : Info) (input : JVal)
    (hab : info.abortEarly = true) (hrp : AbortSingle restParse) :
    ∀ (values : List JVal) (index : Nat) (output : List JVal)
      (issues : List Issue) res,
      tupleRestLoop restParse info input values index output issues =
        some res →
      (∀ r, res = .inl r → ∃ is, r = .notOk is ∧ is.length = 1) ∧
      (∀ out2 is2, res = .inr (out2, is2) → is2 = issues) := by
  intro values
  induction values with
  | nil =>
    intro index output issues res h
    unfold tupleRestLoop at h
    cases Option.some.inj h
    refine ⟨fun r hr => Sum.noConfusion hr, fun out2 is2 hr => ?_⟩
    cases Sum.inr.inj hr
    rfl
  | cons value rest ih =>
    intro index output issues res h
    unfold tupleRestLoop at h
    cases hr : restParse value (getPathInfo info (getPath info.path
        ⟨"tuple", input, .jnum index, value⟩)) with
    | none =>
      rw [hr] at h
      cases h
    | some result =>
      rw [hr] at h
      cases result with
      | notOk is2 =>
        rw [hab] at h
        simp only [if_true] at h
        cases Option.some.inj h
        refine ⟨fun r hrr => ?_, fun out2 is3 hrr => Sum.noConfusion hrr⟩
        cases Sum.inl.inj hrr
        exact ⟨is2, rfl, hrp _ _ is2 (by exact hab) hr⟩
      | ok o =>
        exact ih (index + 1) (output ++ [o]) issues res h

theorem tupleParse_abortSingle (items : List ParseFn)
    (rest : Option ParseFn) (e : Option String) (p : List VAction)
    (hitems : ∀ c ∈ items, AbortSingle c)
    (hrest : ∀ c, rest = some c → AbortSingle c) :
    AbortSingle (tupleParse items rest e p) := by
  intro v i is hab h
  unfold tupleParse at h
  split at h
  · rename_i xs
    split at h
    · cases Option.some.inj h
      rfl
    · split at h
      · exact Option.noConfusion h
      · rename_i earlyResult hil
        have hinfo := (tupleItemsLoop_abort i (.jarr xs) xs hab items hitems
          0 [] [] _ hil).1 earlyResult rfl
        obtain ⟨is2, hr2, hlen⟩ := hinfo
        rw [Option.some.inj h] at hr2
        rw [Res.notOk.inj hr2]
        exact hlen
      · rename_i out2 issues2 hil
        have hisnil : issues2 = [] := (tupleItemsLoop_abort i (.jarr xs) xs
          hab items hitems 0 [] [] _ hil).2 out2 issues2 rfl
        subst hisnil
        split at h
        · rename_i restParse hgate
          split at h
          · exact Option.noConfusion h
          · rename_i earlyResult hrl
            obtain ⟨is2, hr2, hlen⟩ := (tupleRestLoop_abort restParse i
              (.jarr xs) hab (hrest restParse rfl)
              (xs.drop items.length) items.length out2 [] _ hrl).1
              earlyResult rfl
            rw [Option.some.inj h] at hr2
            rw [Res.notOk.inj hr2]
            exact hlen
          · rename_i out3 issues3 hrl
            have hisnil2 : issues3 = [] := (tupleRestLoop_abort restParse i
              (.jarr xs) hab (hrest restParse rfl)
              (xs.drop items.length) items.length out2 [] _ hrl).2 out3
              issues3 rfl
            subst hisnil2
            simp only [List.isEmpty_nil, if_true] at h
            exact pipeResultLoop_abort_single p (getPipeInfo i "tuple") _
              (by exact hab) is (Option.some.inj h)
        · simp only [List.isEmpty_nil, if_true] at h
          exact pipeResultLoop_abort_single p (getPipeInfo i "tuple") _
            (by exact hab) is (Option.some.inj h)
  · cases Option.some.inj h
    rfl

theorem unionParse_abortSingle (options : List ParseFn) (e : Option String) :
    AbortSingle (unionParse options e) := by
  intro v i is hab h
  unfold unionParse at h
  split at h
  · exact Option.noConfusion h
  · cases Option.some.inj h
    rfl
  · cases Option.some.inj h

theorem parse_abortSingle_fuel : ∀ (n : Nat) (s : SSchema), sizeOf s ≤ n →
    AbortSingle (parse s) := by
  intro n
  induction n with
  | zero =>
    intro s hs
    cases s <;> simp at hs
  | succ n ih =>
    intro s hs
    cases s with
    | strS e p =>
      simp only [parse]
      exact strParse_abortSingle e p
    | neverS e =>
      simp only [parse]
      exact neverParse_abortSingle e
    | voidS e =>
      simp only [parse]
      exact voidParse_abortSingle e
    | arrayS item e p =>
      simp only [parse]
      refine arrayParse_abortSingle (parse item) e p (ih item ?_)
      simp at hs
      omega
    | objectS shape e p =>
      simp only [parse]
      refine objectParse_abortSingle (parseShape shape) e p ?_
      rw [parseShape_eq]
      intro kc hkc
      rw [List.mem_map] at hkc
      obtain ⟨ks, hmem, hkc2⟩ := hkc
      have hsz := List.sizeOf_lt_of_mem hmem
      rw [← hkc2]
      refine ih ks.2 ?_
      obtain ⟨k2, s2⟩ := ks
      simp at hs hsz ⊢
      omega
    | recordS ks vs e p =>
      simp only [parse]
      refine recordParse_abortSingle (parse ks) (parse vs) e p (ih ks ?_)
        (ih vs ?_) <;> (simp at hs; omega)
    | tupleS items rst e p =>
      simp only [parse]
      refine tupleParse_abortSingle (parseList items) (parseOpt rst) e p ?_ ?_
      · rw [parseList_eq]
        intro c hc
        rw [List.mem_map] at hc
        obtain ⟨s, hmem, hc2⟩ := hc
        have hsz := List.sizeOf_lt_of_mem hmem
        rw [← hc2]
        refine ih s ?_
        simp at hs
        omega
      · intro c hc
        rw [parseOpt_eq] at hc
        cases rst with
        | none => cases hc
        | some s =>
          have hc2 : parse s = c := Option.some.inj hc
          rw [← hc2]
          refine ih s ?_
          simp at hs
          omega
    | unionS opts e =>
      simp only [parse]
      exact unionParse_abortSingle (parseList opts) e

theorem objectLoop_abort_first_fail (input : JVal) (info : Info)
    (hab : info.abortEarly = true) :
    ∀ (pre : List (String × ParseFn)),
      (∀ kc ∈ pre, ∃ o, kc.2 (getProp input kc.1)
        (getPathInfo info (getPath info.path
          ⟨"object", input, .jstr kc.1, getProp input kc.1⟩)) =
        some (.ok o)) →
      ∀ (k : String) (c : ParseFn) (is : List Issue),
        c (getProp input k) (getPathInfo info (getPath info.path
          ⟨"object", input, .jstr k, getProp input k⟩)) = some (.notOk is) →
        ∀ (post : List (String × ParseFn)) (pipe : List VAction)
          (output : List (String × JVal)),
          objectLoop pipe input info (pre ++ (k, c) :: post) output [] =
            some (.notOk is) := by
  intro pre
  induction pre with
  | nil =>
    intro _ k c is hfail post pipe output
    rw [List.nil_append]
    unfold objectLoop
    dsimp only
    rw [hfail, hab]
    simp
  | cons kc pre2 ih =>
    intro hpre k c is hfail post pipe output
    obtain ⟨key, child⟩ := kc
    obtain ⟨o, ho⟩ := hpre (key, child) (by simp)
    dsimp only at ho
    rw [List.cons_append]
    unfold objectLoop
    dsimp only
    rw [ho]
    exact ih (fun kc2 h2 => hpre kc2 (by simp [h2])) k c is hfail post pipe
      (setProp output key o)

/-- C5: abortEarly truncates failures to a single issue and returns the
first failing child's result verbatim. First conjunct: for every schema of
the modelled universe, when parse runs with abortEarly set and fails, the
issue sequence has length exactly one. Second conjunct: for the object
schema, whenever the type gate passes, every declared child before key k
succeeds and the child at k fails with issue list is, objectParse returns
some (notOk is) itself — for every choice of the later children and of the
schema pipe, so no further child is visited observably and no pipe action
can affect the result. -/
theorem claim5_abort_early_single_issue :
    (∀ (s : SSchema) (v : JVal) (i : Info) (is : List Issue),
        i.abortEarly = true → parse s v i = some (.notOk is) →
        is.length = 1) ∧
    (∀ (pre : List (String × ParseFn)) (k : String) (c : ParseFn)
        (post : List (String × ParseFn)) (e : Option String)
        (pipe : List VAction) (v : JVal) (i : Info) (is : List Issue),
        i.abortEarly = true → objectGateFails v = some false →
        (∀ kc ∈ pre, ∃ o, kc.2 (getProp v kc.1)
          (getPathInfo i (getPath i.path
            ⟨"object", v, .jstr kc.1, getProp v kc.1⟩)) = some (.ok o)) →
        c (getProp v k) (getPathInfo i (getPath i.path
          ⟨"object", v, .jstr k, getProp v k⟩)) = some (.notOk is) →
        objectParse (pre ++ (k, c) :: post) e pipe v i =
          some (.notOk is)) := by
  constructor
  · intro s v i is hab h
    exact parse_abortSingle_fuel (sizeOf s) s le_rfl v i is hab h
  · intro pre k c post e pipe v i is hab hgate hpre hfail
    unfold objectParse
    rw [hgate]
    exact objectLoop_abort_first_fail v i hab pre hpre k c is hfail post
      pipe []

theorem claim5_abort_early_single_issue_witness :
    ({ abortEarly := true : Info }).abortEarly = true ∧
    parse (.neverS none) (.jnum 0) { abortEarly := true } =
      some (.notOk [getIssue { abortEarly := true } (some "type") "never"
        "Invalid type" (.jnum 0)]) ∧
    [getIssue { abortEarly := true } (some "type") "never" "Invalid type"
      (.jnum 0)].length = 1 ∧
    objectParse ([("a", strParse none [])] ++ ("b", neverParse none) ::
        [("z", neverParse none)]) none
      [⟨"custom", "Invalid input", fun _ => false⟩]
      (.jobj [("a", .jstr "x")]) { abortEarly := true } =
      some (.notOk [getIssue
        (getPathInfo { abortEarly := true }
          (getPath ({ abortEarly := true : Info }).path
            ⟨"object", .jobj [("a", .jstr "x")], .jstr "b",
              getProp (.jobj [("a", .jstr "x")]) "b"⟩))
        (some "type") "never" "Invalid type"
        (getProp (.jobj [("a", .jstr "x")]) "b")]) := by
  refine ⟨rfl, rfl, ?_, ?_⟩
  · exact claim5_abort_early_single_issue.1 (.neverS none) (.jnum 0)
      { abortEarly := true } _ rfl rfl
  · refine claim5_abort_early_single_issue.2 [("a", strParse none [])] "b"
      (neverParse none) [("z", neverParse none)] none
      [⟨"custom", "Invalid input", fun _ => false⟩]
      (.jobj [("a", .jstr "x")]) { abortEarly := true } _ rfl rfl ?_ rfl
    intro kc hkc
    rw [List.mem_singleton] at hkc
    subst hkc
    exact ⟨.jstr "x", rfl⟩

end Valibot

